import Mathlib

/-!
Shallow embedding of the school timetable generator (`src/main.py`).

The Python program keeps its data in nested `dict`s; these are embedded as
association lists (`List (K × V)`), whose lookup/assignment helpers `dget`
and `dset` mirror Python `dict` lookup (first matching key) and assignment
(overwrite in place if present, else append).  The pseudo-random generator
(`random.choice`, `random.sample`) is abstracted as an injectable stream of
natural numbers (`RandGen`): a draw over a list picks the element at index
`n % length`, and sampling without replacement repeatedly removes the drawn
element.  All theorems quantify over the stream, so they hold for every
possible sequence of random draws of a run.
-/

/-- Python dict lookup: the value at the first matching key, if any. -/
def dget {K V : Type} [DecidableEq K] : List (K × V) → K → Option V
  | [], _ => none
  | q :: rest, k => if q.1 = k then some q.2 else dget rest k

/-- Python dict assignment `m[k] = v`: overwrite if the key is present, else append. -/
def dset {K V : Type} [DecidableEq K] (m : List (K × V)) (k : K) (v : V) : List (K × V) :=
  if (dget m k).isSome then m.map (fun q => if q.1 = k then (k, v) else q)
  else m ++ [(k, v)]

/-- Two-level dict lookup `m.get(a, {}).get(b)` used for schedules and grids. -/
def dget2 (g : List (String × List (String × String))) (a b : String) : Option String :=
  (dget g a).bind (fun row => dget row b)

/-- Python `needle in hay` on strings (substring containment). -/
def containsSub (hay needle : String) : Bool :=
  (List.range (hay.toList.length + 1)).any (fun i => needle.toList.isPrefixOf (hay.toList.drop i))

/-- Split a character list at every occurrence of `sep` (Python `str.split(sep)`
for a one-character separator, as in `split(":")` and `split(",")`). -/
def splitOnCharAux (sep : Char) : List Char → List Char → List (List Char)
  | [], acc => [acc.reverse]
  | c :: cs, acc =>
    if c = sep then acc.reverse :: splitOnCharAux sep cs []
    else splitOnCharAux sep cs (c :: acc)

/-- Python `s.split(sep)` for a one-character separator. -/
def pySplit (s : String) (sep : Char) : List String :=
  (splitOnCharAux sep s.toList []).map (fun cs => (⟨cs⟩ : String))

/-- Python `s.split()` (no argument): split on spaces, dropping empty pieces. -/
def pySplitWs (s : String) : List String :=
  ((splitOnCharAux ' ' s.toList []).map (fun cs => (⟨cs⟩ : String))).filter (fun x => x ≠ "")

/-- Python `s.strip()`: drop whitespace from both ends. -/
def pyStrip (s : String) : String :=
  ⟨((s.toList.dropWhile (fun c => c.isWhitespace)).reverse.dropWhile
      (fun c => c.isWhitespace)).reverse⟩

/-- The value of a nonempty all-digit character list. -/
def digitsVal (cs : List Char) : Option Nat :=
  if cs ≠ [] ∧ cs.all (fun c => c.isDigit) then
    some (cs.foldl (fun n c => n * 10 + (c.toNat - 48)) 0)
  else none

/-- Python `int(s)`: optional sign followed by digits, `none` for `ValueError`. -/
def pyInt (s : String) : Option Int :=
  match s.toList with
  | '-' :: cs => (digitsVal cs).map (fun n => -(n : Int))
  | '+' :: cs => (digitsVal cs).map (fun n => (n : Int))
  | cs => (digitsVal cs).map (fun n => (n : Int))

/-- A teacher's weekly schedule: day -> time slot -> occupant label ("" = free). -/
abbrev Schedule := List (String × List (String × String))

/-- A class timetable grid: time slot -> day -> occupant label. -/
abbrev Grid := List (String × List (String × String))

/-- Per-day pools of still-available time slots. -/
abbrev Avail := List (String × List String)

/-- The `Teacher` dataclass of `src/main.py` (subject/grade sets as lists). -/
structure Teacher where
  name : String
  subjects : List String
  grades : List String
  schedule : Schedule
  deriving DecidableEq

/-- `Teacher.initialize_schedule`: reset to all-free over exactly the given grid. -/
def initialize_schedule (days time_slots : List String) : Schedule :=
  days.map (fun day => (day, time_slots.map (fun slot => (slot, ""))))

/-- `Teacher.is_available`: `not self.schedule.get(day, {}).get(time_slot)` —
true iff the cell is absent or holds the empty string. -/
def Teacher.is_available (t : Teacher) (day time_slot : String) : Bool :=
  (dget2 t.schedule day time_slot).getD "" = ""

/-- `Teacher.assign`: set the cell when both keys are present, else no-op.
(The map leaves the schedule unchanged exactly when `day` or `time_slot` is missing.) -/
def Teacher.assign (t : Teacher) (day time_slot class_name : String) : Teacher :=
  { t with schedule :=
      t.schedule.map (fun p =>
        if p.1 = day then
          (p.1, p.2.map (fun q => if q.1 = time_slot then (q.1, class_name) else q))
        else p) }

/-- The mutable state of `TimetableManager` (UI/file-export fields excluded). -/
structure Manager where
  teachers : List (String × Teacher)
  subject_grade_teachers : List ((String × String) × List String)
  timetable_cache : List (String × Grid)
  teacher_timetable : List (String × Schedule)
  deriving DecidableEq

/-- `TimetableManager.__init__`: empty registry, index and caches. -/
def initManager : Manager := ⟨[], [], [], []⟩

/-- `TimetableManager.WEEKDAYS`. -/
def WEEKDAYS : List String := ["Monday", "Tuesday", "Wednesday", "Thursday", "Friday"]

/-- `TimetableManager.GRADE_MAPPING`. -/
def GRADE_MAPPING : List (String × String) :=
  [("1", "1-5"), ("2", "1-5"), ("3", "1-5"), ("4", "1-5"), ("5", "1-5"),
   ("6", "6-8"), ("7", "6-8"), ("8", "6-8"),
   ("9", "9-10"), ("10", "9-10"),
   ("11", "11-12 Science"), ("12", "11-12 Science")]

/-- `TimetableManager.NCERT_SUBJECTS` (total: `grade_key` always comes from
`get_grade_key`, whose range is the six keys below). -/
def NCERT_SUBJECTS (grade_key : String) : List String :=
  if grade_key = "1-5" then
    ["English", "Hindi", "Mathematics", "EVS", "Art", "Physical Education"]
  else if grade_key = "6-8" then
    ["English", "Hindi", "Mathematics", "Science", "Social Science", "Sanskrit", "Computer Basics"]
  else if grade_key = "9-10" then
    ["English", "Hindi", "Mathematics", "Science", "Social Science", "IT", "Commerce Basics"]
  else if grade_key = "11-12 Science" then
    ["Physics", "Chemistry", "Biology/Math", "Computer Science"]
  else if grade_key = "11-12 Commerce" then
    ["Accountancy", "Business Studies", "Economics"]
  else if grade_key = "11-12 Arts" then
    ["History", "Political Science", "Sociology"]
  else []

/-- `TimetableManager.get_grade_key`. -/
def get_grade_key (grade : String) : String :=
  (dget GRADE_MAPPING grade).getD "11-12 Science"

/-- `TimetableManager.add_teacher`.  The Python set comprehension over subjects
and `set(grades)` are embedded as deduplicated lists (set iteration order is
unspecified in Python; only membership matters to the program's behaviour). -/
def add_teacher (m : Manager) (name subjects_text : String) (grades : List String) :
    Manager × String :=
  if name = "" ∨ subjects_text = "" ∨ grades = [] then
    (m, "❌ All fields are required!")
  else
    let subjects := (((pySplit subjects_text ',').map pyStrip).filter (fun s => s ≠ "")).dedup
    let grades_set := grades.dedup
    let teachers' := dset m.teachers name ⟨name, subjects, grades_set, []⟩
    let idx := subjects.foldl (fun acc subject =>
      grades_set.foldl (fun acc2 grade =>
        dset acc2 (subject, grade) ((dget acc2 (subject, grade)).getD [] ++ [name])) acc)
      m.subject_grade_teachers
    ({ m with teachers := teachers', subject_grade_teachers := idx },
     "✅ Teacher " ++ name ++ " added successfully!")

/-- `TimetableManager.get_available_teachers`.  (`self.teachers[name]` cannot
fail in reachable states: every indexed name was registered; a missing name is
embedded as "not available".) -/
def get_available_teachers (m : Manager) (subject grade_key day time_slot : String) :
    List String :=
  ((dget m.subject_grade_teachers (subject, grade_key)).getD []).filter
    (fun name => ((dget m.teachers name).map (fun t => t.is_available day time_slot)).getD false)

/-- The injectable random source: an infinite stream of naturals and a cursor. -/
structure RandGen where
  g : Nat → Nat
  k : Nat

/-- Draw the next raw natural from the stream. -/
def RandGen.next (r : RandGen) : Nat × RandGen := (r.g r.k, ⟨r.g, r.k + 1⟩)

/-- `random.choice`: an element of the list (index `n % length`); `none` embeds
the exception raised on an empty list. -/
def randChoice {α : Type} (r : RandGen) (xs : List α) : Option α × RandGen :=
  if xs.isEmpty then (none, r)
  else
    let (n, r') := r.next
    (xs.get? (n % xs.length), r')

/-- `random.sample(xs, k)` (`k ≤ xs.length` at every call site): draw `k`
distinct positions without replacement. -/
def randSample {α : Type} : RandGen → List α → Nat → List α × RandGen
  | r, _, 0 => ([], r)
  | r, xs, Nat.succ k =>
    if xs.isEmpty then ([], r)
    else
      let (n, r') := r.next
      let i := n % xs.length
      match xs.get? i with
      | none => ([], r')
      | some x =>
        let (rest, r'') := randSample r' (xs.eraseIdx i) k
        (x :: rest, r'')

/-- `TimetableManager.assign_teacher`: pick an available qualified teacher and
book that teacher's own schedule, or return the placeholder `"TBD"`. -/
def assign_teacher (m : Manager) (r : RandGen)
    (subject grade_key day time_slot class_name : String) :
    String × Manager × RandGen :=
  let available_teachers := get_available_teachers m subject grade_key day time_slot
  if available_teachers = [] then ("TBD", m, r)
  else
    let (n, r') := r.next
    let teacher := available_teachers.getD (n % available_teachers.length) ""
    let m' := { m with teachers := m.teachers.map (fun p =>
        if p.1 = teacher then (p.1, p.2.assign day time_slot class_name) else p) }
    (teacher, m', r')

/-- The 12-hour label formatter nested in `_create_time_slots`. -/
def format_hour (h : Int) : String :=
  if h = 0 ∨ h = 24 then "12:00-12:50 AM"
  else if h = 12 then "12:00-12:50 PM"
  else
    let period := if h < 12 then "AM" else "PM"
    let h2 := if h ≤ 12 then h else h - 12
    toString h2 ++ ":00-" ++ toString h2 ++ ":50 " ++ period

/-- `TimetableManager._create_time_slots`: labels for `range(start, end+1)`,
truncated to `count` entries. -/
def create_time_slots (start_hour end_hour : Int) (count : Nat) : List String :=
  (((List.range (end_hour + 1 - start_hour).toNat).map
    (fun i => format_hour (start_hour + Int.ofNat i)))).take count

/-- The `parse_time` helper nested in `generate_timetable`: hour before the
first `":"`, adjusted by the 12-hour markers; `none` embeds the `ValueError`
of `int` on a non-numeric prefix. -/
def parse_time (time_str : String) : Option Int :=
  (pyInt ((pySplit time_str ':').headD "")).map (fun hour =>
    if containsSub time_str "PM" ∧ hour ≠ 12 then hour + 12
    else if containsSub time_str "AM" ∧ hour = 12 then 0
    else hour)

/-- The per-run generation parameters read from `params` (already converted to
their numeric types, as `generate_timetable` does with `int(...)`). -/
structure Params where
  selected_sections : List String
  activity_subjects : List String
  activity_count : Nat
  start_time : String
  end_time : String
  periods_per_day : Nat
  lunch_time : String
  saturday_option : String
  deriving DecidableEq

/-- The per-run constants consumed by the per-class assignment loop. -/
structure Ctx where
  days : List String
  time_slots : List String
  lunch_time : String
  saturday_option : String
  activity_subjects : List String
  activity_count : Nat
  deriving DecidableEq

/-- State threaded through the per-class loop body. -/
structure PState where
  m : Manager
  r : RandGen
  tt : Grid
  av : Avail

/-- State threaded through the core-subject fill of one day. -/
structure CState where
  m : Manager
  r : RandGen
  tt : Grid
  pool : List String

/-- Set `timetable[slot][day] = v` (both keys always present at call sites;
the map is a no-op on a missing key). -/
def tset (g : Grid) (slot day v : String) : Grid :=
  g.map (fun p =>
    if p.1 = slot then
      (p.1, p.2.map (fun q => if q.1 = day then (q.1, v) else q))
    else p)

/-- `available_slots[day].remove(t)` guarded by membership: erase the first
occurrence of `t`, no-op when absent. -/
def aerase (av : Avail) (day t : String) : Avail :=
  av.map (fun p => if p.1 = day then (p.1, p.2.erase t) else p)

/-- Write back the mutated pool of one day (`available_slots[day]` aliasing). -/
def aset (av : Avail) (day : String) (pool : List String) : Avail :=
  av.map (fun p => if p.1 = day then (p.1, pool) else p)

/-- One day of lunch placement: mark the cell and drop the slot from the pool
(`generate_timetable` lines 181-184). -/
def lunchStep (lunch_time : String) (st : Grid × Avail) (day : String) : Grid × Avail :=
  (tset st.1 lunch_time day "Lunch Break 🍽", aerase st.2 day lunch_time)

/-- Lunch placement over all days, when the lunch slot is in the slot list
(`generate_timetable` lines 180-184). -/
def lunchPhase (ctx : Ctx) (tt : Grid) (av : Avail) : Grid × Avail :=
  if ctx.lunch_time ∈ ctx.time_slots then ctx.days.foldl (lunchStep ctx.lunch_time) (tt, av)
  else (tt, av)

/-- One sampled activity slot: choose an activity, assign a teacher, record the
label, drop the pair from the pool (`generate_timetable` lines 191-195). -/
def activityStep (grade_key class_name : String) (activity_options : List String)
    (st : PState) (dt : String × String) : PState :=
  let ch := randChoice st.r activity_options
  let activity := ch.1.getD ""
  let asg := assign_teacher st.m ch.2 activity grade_key dt.1 dt.2 class_name
  ⟨asg.2.1, asg.2.2, tset st.tt dt.2 dt.1 (activity ++ " (" ++ asg.1 ++ ")"),
    aerase st.av dt.1 dt.2⟩

/-- Activity placement (`generate_timetable` lines 186-195). -/
def activityPhase (ctx : Ctx) (grade_key class_name : String) (st : PState) : PState :=
  let activity_count := min ctx.activity_count (ctx.days.length * ctx.time_slots.length)
  let activity_options := ctx.activity_subjects
  if activity_options ≠ [] ∧ 0 < activity_count then
    let all_slots :=
      (ctx.days.map (fun day => ((dget st.av day).getD []).map (fun time => (day, time)))).flatten
    let smp := randSample st.r all_slots (min activity_count all_slots.length)
    smp.1.foldl (activityStep grade_key class_name activity_options) ⟨st.m, smp.2, st.tt, st.av⟩
  else st

/-- One core-subject cell: choose a subject, assign a teacher, record the
label, remove the slot from the live pool (`generate_timetable` lines 200-204). -/
def coreStep (grade_key class_name day : String) (core_subjects : List String)
    (st : CState) (time : String) : CState :=
  let ch := randChoice st.r core_subjects
  let subject := ch.1.getD ""
  let asg := assign_teacher st.m ch.2 subject grade_key day time class_name
  ⟨asg.2.1, asg.2.2, tset st.tt time day (subject ++ " (" ++ asg.1 ++ ")"), st.pool.erase time⟩

/-- Core fill of one day: iterate over a copy of the day's remaining pool,
emptying the live pool (`generate_timetable` lines 198-204). -/
def coreDay (grade_key class_name : String) (core_subjects : List String)
    (st : PState) (day : String) : PState :=
  let slots := (dget st.av day).getD []
  let c := slots.foldl (coreStep grade_key class_name day core_subjects) ⟨st.m, st.r, st.tt, slots⟩
  ⟨c.m, c.r, c.tt, aset st.av day c.pool⟩

/-- Core-subject fill over all days (`generate_timetable` lines 197-204). -/
def corePhase (ctx : Ctx) (grade_key class_name : String) (st : PState) : PState :=
  ctx.days.foldl (coreDay grade_key class_name (NCERT_SUBJECTS grade_key)) st

/-- The body of the per-class loop of `generate_timetable` (lines 171-204):
build the empty grid, place lunch, activities and core subjects, and return
the mutated registry, random source and the finished class grid. -/
def processClass (ctx : Ctx) (m : Manager) (r : RandGen) (class_name : String) :
    Manager × RandGen × Grid :=
  let grade := (pySplitWs class_name).getD 1 ""
  let grade_key := get_grade_key grade
  let timetable : Grid := ctx.time_slots.map (fun time => (time, ctx.days.map (fun day => (day, ""))))
  let saturday_slots :=
    if ctx.saturday_option = "Half Day" then ctx.time_slots.take (ctx.time_slots.length / 2)
    else ctx.time_slots
  let available_slots : Avail :=
    ctx.days.map (fun day => (day, if day ≠ "Saturday" then ctx.time_slots else saturday_slots))
  let la := lunchPhase ctx timetable available_slots
  let st2 := activityPhase ctx grade_key class_name ⟨m, r, la.1, la.2⟩
  let st3 := corePhase ctx grade_key class_name st2
  (st3.m, st3.r, st3.tt)

/-- One iteration of the class loop: process the class and cache its grid. -/
def classStep (ctx : Ctx) (st : Manager × RandGen × List (String × Grid)) (class_name : String) :
    Manager × RandGen × List (String × Grid) :=
  let out := processClass ctx st.1 st.2.1 class_name
  (out.1, out.2.1, dset st.2.2 class_name out.2.2)

/-- The class loop from an arbitrary intermediate state. -/
def runFrom (ctx : Ctx) (st : Manager × RandGen × List (String × Grid)) (classes : List String) :
    Manager × RandGen × List (String × Grid) :=
  classes.foldl (classStep ctx) st

/-- The whole class loop of a generation run, starting from the cleared cache. -/
def runClasses (ctx : Ctx) (m : Manager) (r : RandGen) (classes : List String) :
    Manager × RandGen × List (String × Grid) :=
  runFrom ctx (m, r, []) classes

/-- The class-section list `[f"Grade {i} {section}" ...]` of lines 163. -/
def classList (selected_sections : List String) : List String :=
  ((List.range 12).map (fun i =>
    selected_sections.map (fun sec => "Grade " ++ toString (i + 1) ++ " " ++ sec))).flatten

/-- A teacher's exported grid: booked class per cell, `"Free"` when empty
(`generate_timetable` lines 212-215). -/
def teacherGrid (ctx : Ctx) (t : Teacher) : Schedule :=
  ctx.days.map (fun day => (day, ctx.time_slots.map (fun slot =>
    (slot, if (dget2 t.schedule day slot).getD "" = "" then "Free"
           else (dget2 t.schedule day slot).getD ""))))

/-- The tail of `generate_timetable` after all validation has passed
(lines 167-223): clear caches, run the class loop, then derive the
per-teacher grids. -/
def generateSuccess (ctx : Ctx) (m2 : Manager) (r : RandGen) (classes : List String) :
    String × Manager × RandGen :=
  let out := runClasses ctx m2 r classes
  let teacher_schedules := out.1.teachers.foldl
    (fun acc q => dset acc q.1 (teacherGrid ctx q.2)) []
  ("✅ Generation Complete",
   { out.1 with timetable_cache := out.2.2, teacher_timetable := teacher_schedules },
   out.2.1)

/-- `TimetableManager.generate_timetable` (CSV export excluded; the returned
string is the status, alongside the mutated manager state and random source).
The fallthrough branch embeds the top-level `except` path taken when a time
label has no numeric hour prefix. -/
def generate_timetable (m : Manager) (r : RandGen) (p : Params) : String × Manager × RandGen :=
  match parse_time p.start_time, parse_time p.end_time with
  | some start_hour, some end_hour =>
    if end_hour ≤ start_hour then ("❌ End time must be after start time", m, r)
    else if end_hour - start_hour < (p.periods_per_day : Int) then
      ("❌ Not enough hours (" ++ toString (end_hour - start_hour) ++ ") for "
        ++ toString p.periods_per_day ++ " periods", m, r)
    else
      let time_slots := create_time_slots start_hour end_hour p.periods_per_day
      let saturday_included := p.saturday_option ≠ "Holiday"
      let days := WEEKDAYS ++ (if saturday_included then ["Saturday"] else [])
      let m1 := { m with teachers := m.teachers.map (fun q =>
        (q.1, { q.2 with schedule := initialize_schedule days time_slots })) }
      let selected_sections := p.selected_sections.take 4
      let classes := classList selected_sections
      if classes.length ≠ 48 then
        ("❌ Expected 48 classes (12 grades × 4 sections), got " ++ toString classes.length
          ++ ". Adjust sections.", m1, r)
      else
        let m2 := { m1 with timetable_cache := [], teacher_timetable := [] }
        let ctx : Ctx := ⟨days, time_slots, p.lunch_time, p.saturday_option,
          p.activity_subjects, p.activity_count⟩
        generateSuccess ctx m2 r classes
  | _, _ => ("❌ Error: invalid time", m, r)

/-! ### Basic association-list lemmas -/

theorem dget_nil {K V : Type} [DecidableEq K] (k : K) : dget ([] : List (K × V)) k = none := rfl

theorem dget_cons {K V : Type} [DecidableEq K] (q : K × V) (rest : List (K × V)) (k : K) :
    dget (q :: rest) k = if q.1 = k then some q.2 else dget rest k := rfl

theorem dget_eq_none_iff {K V : Type} [DecidableEq K] (m : List (K × V)) (k : K) :
    dget m k = none ↔ k ∉ m.map (·.1) := by
  induction m with
  | nil => simp [dget]
  | cons q rest ih =>
    constructor
    · intro h hmem
      rw [List.map_cons, List.mem_cons] at hmem
      rw [dget_cons] at h
      by_cases hqk : q.1 = k
      · rw [if_pos hqk] at h; cases h
      · rw [if_neg hqk] at h
        rcases hmem with hmem | hmem
        · exact hqk hmem.symm
        · exact ih.mp h hmem
    · intro h
      have h1 : ¬ q.1 = k := by
        intro hq
        exact h (by rw [List.map_cons, hq]; exact List.mem_cons_self k _)
      rw [dget_cons, if_neg h1]
      refine ih.mpr (fun hm => h ?_)
      rw [List.map_cons]
      exact List.mem_cons_of_mem _ hm

theorem dget_overwrite {K V : Type} [DecidableEq K] (m : List (K × V)) (k : K) (v : V) (k' : K) :
    dget (m.map (fun q => if q.1 = k then (k, v) else q)) k' =
      if k' = k then (dget m k).map (fun _ => v) else dget m k' := by
  induction m with
  | nil => by_cases h : k' = k <;> simp [dget, h]
  | cons q rest ih =>
    rw [List.map_cons]
    by_cases hqk : q.1 = k
    · rw [if_pos hqk, dget_cons, dget_cons, if_pos hqk]
      by_cases hk' : k' = k
      · rw [if_pos (show (k, v).1 = k' from hk'.symm), if_pos hk']
        rfl
      · rw [if_neg (show ¬ (k, v).1 = k' from fun h => hk' h.symm), ih, if_neg hk', if_neg hk',
          dget_cons, if_neg (show ¬ q.1 = k' from fun h => hk' (h.symm.trans hqk))]
    · rw [if_neg hqk, dget_cons, dget_cons, if_neg hqk]
      by_cases hqk' : q.1 = k'
      · have hk' : ¬ k' = k := fun h => hqk (hqk'.trans h)
        rw [if_pos hqk', if_neg hk', dget_cons, if_pos hqk']
      · rw [if_neg hqk', ih, dget_cons, if_neg hqk']

theorem dget_append_single {K V : Type} [DecidableEq K] (m : List (K × V)) (k : K) (v : V)
    (k' : K) (hnone : dget m k = none) :
    dget (m ++ [(k, v)]) k' = if k' = k then some v else dget m k' := by
  induction m with
  | nil =>
    by_cases hk' : k' = k
    · rw [List.nil_append, dget_cons, if_pos (show (k, v).1 = k' from hk'.symm), if_pos hk']
    · rw [List.nil_append, dget_cons, if_neg (show ¬ (k, v).1 = k' from fun h => hk' h.symm),
        if_neg hk']
  | cons q rest ih =>
    rw [List.cons_append, dget_cons, dget_cons]
    by_cases hqk : q.1 = k
    · rw [dget_cons, if_pos hqk] at hnone; cases hnone
    · have hrest : dget rest k = none := by rwa [dget_cons, if_neg hqk] at hnone
      by_cases hqk' : q.1 = k'
      · have hk' : ¬ k' = k := fun h => hqk (hqk'.trans h)
        rw [if_pos hqk', if_pos hqk', if_neg hk']
      · rw [if_neg hqk', if_neg hqk', ih hrest]

theorem dget_dset {K V : Type} [DecidableEq K] (m : List (K × V)) (k : K) (v : V) (k' : K) :
    dget (dset m k v) k' = if k' = k then some v else dget m k' := by
  unfold dset
  by_cases h : (dget m k).isSome
  · rw [if_pos h, dget_overwrite]
    obtain ⟨w, hw⟩ := Option.isSome_iff_exists.mp h
    by_cases hk' : k' = k <;> simp [hk', hw]
  · rw [if_neg h]
    exact dget_append_single m k v k' (Option.not_isSome_iff_eq_none.mp h)

theorem keys_dset_new {K V : Type} [DecidableEq K] (m : List (K × V)) (k : K) (v : V)
    (h : k ∉ m.map (·.1)) : (dset m k v).map (·.1) = m.map (·.1) ++ [k] := by
  have hnone : dget m k = none := (dget_eq_none_iff m k).mpr h
  simp [dset, hnone]

/-- Looking up after a value-adjusting map at one key. -/
theorem dget_adjust {K V : Type} [DecidableEq K] (m : List (K × V)) (k : K) (f : V → V)
    (k' : K) :
    dget (m.map (fun q => if q.1 = k then (q.1, f q.2) else q)) k' =
      if k' = k then (dget m k').map f else dget m k' := by
  induction m with
  | nil => by_cases h : k' = k <;> simp [dget, h]
  | cons q rest ih =>
    rw [List.map_cons]
    by_cases hqk : q.1 = k
    · by_cases hk' : k' = k
      · have hqk' : q.1 = k' := hqk.trans hk'.symm
        rw [if_pos hqk, dget_cons, dget_cons, if_pos (show (q.1, f q.2).1 = k' from hqk'),
          if_pos hqk', if_pos hk']
        rfl
      · have hqk' : ¬ q.1 = k' := fun h => hk' (h.symm.trans hqk)
        rw [if_pos hqk, dget_cons, dget_cons, if_neg (show ¬ (q.1, f q.2).1 = k' from hqk'),
          if_neg hqk', ih, if_neg hk']
    · by_cases hqk' : q.1 = k'
      · have hk' : ¬ k' = k := fun h => hqk (hqk'.trans h)
        rw [if_neg hqk, dget_cons, dget_cons, if_pos hqk', if_pos hqk', if_neg hk']
      · rw [if_neg hqk, dget_cons, dget_cons, if_neg hqk', if_neg hqk', ih]

/-- Key-preserving maps do not change the key list. -/
theorem keys_adjust {K V : Type} [DecidableEq K] (m : List (K × V)) (k : K) (f : V → V) :
    (m.map (fun q => if q.1 = k then (q.1, f q.2) else q)).map (·.1) = m.map (·.1) := by
  induction m with
  | nil => rfl
  | cons q rest ih =>
    by_cases hqk : q.1 = k <;> simp [hqk, ih]

/-- Lookup in a map whose entries are keyed by the list elements themselves. -/
theorem dget_map_self {V : Type} (l : List String) (F : String → V) (k : String) :
    dget (l.map (fun x => (x, F x))) k = if k ∈ l then some (F k) else none := by
  induction l with
  | nil => simp [dget]
  | cons x rest ih =>
    rw [List.map_cons, dget_cons]
    by_cases hxk : x = k
    · subst hxk; simp
    · rw [if_neg hxk, ih]
      by_cases hk : k ∈ rest
      · rw [if_pos hk, if_pos (List.mem_cons_of_mem _ hk)]
      · have hnc : k ∉ x :: rest := by
          intro hc
          rcases List.mem_cons.mp hc with hc | hc
          · exact hxk hc.symm
          · exact hk hc
        rw [if_neg hk, if_neg hnc]

/-- Element chosen by a modular index is in the (nonempty) list. -/
theorem getD_mod_mem {α : Type} [Inhabited α] (l : List α) (n : Nat) (d : α) (h : l ≠ []) :
    l.getD (n % l.length) d ∈ l := by
  have hpos : 0 < l.length := List.length_pos.mpr h
  have hlt : n % l.length < l.length := Nat.mod_lt _ hpos
  rw [List.getD_eq_getElem l d hlt]
  exact l.getElem_mem hlt

/-! ### Generic fold lemmas -/

theorem foldl_rel {σ α : Type} (R : σ → σ → Prop) (hrefl : ∀ s, R s s)
    (htrans : ∀ a b c, R a b → R b c → R a c) (f : σ → α → σ) :
    ∀ (l : List α) (s : σ), (∀ s' a, a ∈ l → R s' (f s' a)) → R s (l.foldl f s) := by
  intro l
  induction l with
  | nil => intro s _; exact hrefl s
  | cons a rest ih =>
    intro s hstep
    refine htrans _ _ _ (hstep s a (by simp)) ?_
    exact ih (f s a) (fun s' b hb => hstep s' b (by simp [hb]))

theorem foldl_pres {σ α : Type} (P : σ → Prop) (f : σ → α → σ) :
    ∀ (l : List α) (s : σ), (∀ s' a, a ∈ l → P s' → P (f s' a)) → P s → P (l.foldl f s) := by
  intro l
  induction l with
  | nil => intro s _ hs; exact hs
  | cons a rest ih =>
    intro s hstep hs
    exact ih (f s a) (fun s' b hb => hstep s' b (by simp [hb])) (hstep s a (by simp) hs)

/-! ### Option-valued cell relations -/

/-- A cell either stays unchanged or is booked: it was empty (or absent) and
now holds the class label. -/
def Rbook (cn : String) (o o' : Option String) : Prop :=
  o' = o ∨ (o.getD "" = "" ∧ o' = some cn)

theorem Rbook.rb_refl (cn : String) (o : Option String) : Rbook cn o o := Or.inl (Eq.refl o)

theorem Rbook.rb_trans (cn : String) (a b c : Option String)
    (h1 : Rbook cn a b) (h2 : Rbook cn b c) : Rbook cn a c := by
  rcases h1 with h1 | ⟨ha, hb⟩
  · rcases h2 with h2 | ⟨hb', hc⟩
    · exact Or.inl (h2.trans h1)
    · exact Or.inr ⟨h1 ▸ hb', hc⟩
  · rcases h2 with h2 | ⟨hb', hc⟩
    · exact Or.inr ⟨ha, h2.trans hb⟩
    · rw [hb] at hb'
      simp at hb'
      exact Or.inr ⟨ha, hb' ▸ hc⟩

/-- Nonempty cell values persist. -/
def Keep (o o' : Option String) : Prop := ∀ v, v ≠ "" → o = some v → o' = some v

theorem Keep.keep_refl (o : Option String) : Keep o o := fun _ _ h => h

theorem Keep.keep_trans (a b c : Option String) (h1 : Keep a b) (h2 : Keep b c) : Keep a c :=
  fun v hv h => h2 v hv (h1 v hv h)

theorem Rbook.keep (cn : String) (o o' : Option String) (h : Rbook cn o o') : Keep o o' := by
  intro v hv ho
  rcases h with h | ⟨ha, _⟩
  · exact h.trans ho
  · rw [ho] at ha; simp at ha; exact absurd ha hv

/-! ### C10: hour-label round trip -/

/-- C10: for every hour `0 ≤ h ≤ 23`, parsing the 12-hour slot label produced
for `h` yields `h` back — `parse_time (format_hour h) = h` — including the
midnight (`h = 0` ↦ `"12:00-12:50 AM"`) and noon (`h = 12` ↦ `"12:00-12:50 PM"`)
special cases. -/
theorem hour_label_roundtrip (h : Nat) (hle : h ≤ 23) :
    parse_time (format_hour (h : Int)) = some (h : Int) := by
  have hall : ∀ h' : Nat, h' < 24 → parse_time (format_hour (h' : Int)) = some (h' : Int) := by
    decide
  exact hall h (Nat.lt_succ_of_le hle)

/-- Witness for C10 at the midnight corner case `h = 0`. -/
theorem hour_label_roundtrip_witness :
    (0 : Nat) ≤ 23 ∧ parse_time (format_hour ((0 : Nat) : Int)) = some (((0 : Nat)) : Int) :=
  ⟨by decide, hour_label_roundtrip 0 (by decide)⟩

/-! ### C7: slot-grid construction and its validation -/

/-- A concrete random stream used by the witnesses (always draws 0). -/
def zeroGen : RandGen := ⟨fun _ => 0, 0⟩

/-- C7: generation fails with the validation status and an unchanged state when
the parsed end hour is ≤ the parsed start hour, or when the hour span is
smaller than the requested period count; otherwise `_create_time_slots`
deterministically produces the sequential 50-minute labels from the start
hour truncated to exactly `count` entries; in particular
start `"8:00-8:50 AM"`, end `"3:00-3:50 PM"`, periods 7 yield exactly the 7
sequential slots beginning with `"8:00-8:50 AM"`. -/
theorem slot_grid_construction
    (m : Manager) (r : RandGen) (p : Params) (start_hour end_hour : Int)
    (hs : parse_time p.start_time = some start_hour)
    (he : parse_time p.end_time = some end_hour) :
    (end_hour ≤ start_hour →
      generate_timetable m r p = ("❌ End time must be after start time", m, r)) ∧
    (start_hour < end_hour → end_hour - start_hour < (p.periods_per_day : Int) →
      generate_timetable m r p =
        ("❌ Not enough hours (" ++ toString (end_hour - start_hour) ++ ") for "
          ++ toString p.periods_per_day ++ " periods", m, r)) ∧
    (∀ count : Nat, (count : Int) ≤ end_hour - start_hour →
      create_time_slots start_hour end_hour count =
        (List.range count).map (fun i => format_hour (start_hour + Int.ofNat i)) ∧
      (create_time_slots start_hour end_hour count).length = count) ∧
    (create_time_slots 8 15 7 =
      ["8:00-8:50 AM", "9:00-9:50 AM", "10:00-10:50 AM", "11:00-11:50 AM",
       "12:00-12:50 PM", "1:00-1:50 PM", "2:00-2:50 PM"] ∧
     parse_time "8:00-8:50 AM" = some 8 ∧ parse_time "3:00-3:50 PM" = some 15) := by
  refine ⟨?_, ?_, ?_, ?_⟩
  · intro hle
    simp only [generate_timetable, hs, he]
    rw [if_pos hle]
  · intro hlt hshort
    simp only [generate_timetable, hs, he]
    rw [if_neg (not_le.mpr hlt), if_pos hshort]
  · intro count hcount
    have hN : count ≤ (end_hour + 1 - start_hour).toNat := by omega
    have hmain : create_time_slots start_hour end_hour count =
        (List.range count).map (fun i => format_hour (start_hour + Int.ofNat i)) := by
      unfold create_time_slots
      rw [← List.map_take, List.take_range, Nat.min_eq_left hN]
    refine ⟨hmain, ?_⟩
    rw [hmain, List.length_map, List.length_range]
  · exact ⟨by decide, by decide, by decide⟩

/-- Witness for C7: a concrete run with end time before start time fails with
the time-range validation message and leaves the state unchanged. -/
theorem slot_grid_construction_witness :
    parse_time "3:00-3:50 PM" = some 15 ∧ parse_time "8:00-8:50 AM" = some 8 ∧
    (8 : Int) ≤ 15 ∧
    generate_timetable initManager zeroGen
      ⟨["A", "B", "C", "D"], [], 1, "3:00-3:50 PM", "8:00-8:50 AM", 7,
        "12:00-12:50 PM", "Holiday"⟩ =
      ("❌ End time must be after start time", initManager, zeroGen) :=
  ⟨by decide, by decide, by decide,
    (slot_grid_construction initManager zeroGen
      ⟨["A", "B", "C", "D"], [], 1, "3:00-3:50 PM", "8:00-8:50 AM", 7,
        "12:00-12:50 PM", "Holiday"⟩ 15 8 (by decide) (by decide)).1 (by decide)⟩

/-! ### C8: qualification-index membership -/

/-- A sequence of `add_teacher` registration calls (name, subjects text, grades). -/
def runRegs (m : Manager) (regs : List (String × String × List String)) : Manager :=
  regs.foldl (fun acc rg => (add_teacher acc rg.1 rg.2.1 rg.2.2).1) m

theorem idx_inner_fold_mem (grades : List String) :
    ∀ (idx : List ((String × String) × List String)) (subject nm s g x : String),
      x ∈ (dget (grades.foldl (fun acc2 grade =>
          dset acc2 (subject, grade) ((dget acc2 (subject, grade)).getD [] ++ [nm])) idx)
        (s, g)).getD [] ↔
      x ∈ (dget idx (s, g)).getD [] ∨ (x = nm ∧ s = subject ∧ g ∈ grades) := by
  induction grades with
  | nil =>
    intro idx subject nm s g x
    simp
  | cons gr rest ih =>
    intro idx subject nm s g x
    rw [List.foldl_cons, ih]
    by_cases hsg : (s, g) = (subject, gr)
    · have hs : s = subject := congrArg Prod.fst hsg
      have hg : g = gr := congrArg Prod.snd hsg
      subst hs; subst hg
      rw [dget_dset, if_pos rfl]
      simp only [Option.getD_some, List.mem_append, List.mem_singleton, List.mem_cons]
      tauto
    · have hsg' : ¬(s = subject ∧ g = gr) := by
        intro ⟨h1, h2⟩; exact hsg (by rw [h1, h2])
      rw [dget_dset, if_neg hsg]
      simp only [List.mem_cons]
      tauto

theorem idx_fold_mem (subjects : List String) :
    ∀ (idx : List ((String × String) × List String)) (grades : List String) (nm s g x : String),
      x ∈ (dget (subjects.foldl (fun acc subject =>
          grades.foldl (fun acc2 grade =>
            dset acc2 (subject, grade) ((dget acc2 (subject, grade)).getD [] ++ [nm])) acc)
          idx) (s, g)).getD [] ↔
      x ∈ (dget idx (s, g)).getD [] ∨ (x = nm ∧ s ∈ subjects ∧ g ∈ grades) := by
  induction subjects with
  | nil =>
    intro idx grades nm s g x
    simp
  | cons sb rest ih =>
    intro idx grades nm s g x
    rw [List.foldl_cons, ih, idx_inner_fold_mem]
    simp only [List.mem_cons]
    tauto

/-- The index/registry coherence property of C8. -/
def IndexCoherent (m : Manager) : Prop :=
  ∀ name s g,
    name ∈ (dget m.subject_grade_teachers (s, g)).getD [] ↔
    ∃ t, dget m.teachers name = some t ∧ s ∈ t.subjects ∧ g ∈ t.grades

theorem add_teacher_coherent (m : Manager) (nm st : String) (gr : List String)
    (hP : IndexCoherent m) (hfresh : dget m.teachers nm = none) :
    IndexCoherent (add_teacher m nm st gr).1 := by
  unfold add_teacher
  by_cases hvalid : nm = "" ∨ st = "" ∨ gr = []
  · rw [if_pos hvalid]; exact hP
  · rw [if_neg hvalid]
    intro name s g
    simp only
    rw [idx_fold_mem, dget_dset]
    by_cases hnm : name = nm
    · subst hnm
      rw [if_pos rfl]
      constructor
      · rintro (hin | ⟨_, h2, h3⟩)
        · obtain ⟨t, ht, _, _⟩ := (hP name s g).mp hin
          rw [hfresh] at ht; cases ht
        · exact ⟨_, rfl, h2, h3⟩
      · rintro ⟨t, ht, h2, h3⟩
        obtain rfl : (⟨name, (((pySplit st ',').map pyStrip).filter (fun s => s ≠ "")).dedup,
            gr.dedup, []⟩ : Teacher) = t := by
          injection ht
        exact Or.inr ⟨rfl, h2, h3⟩
    · rw [if_neg hnm]
      constructor
      · rintro (hin | ⟨h1, _, _⟩)
        · exact (hP name s g).mp hin
        · exact absurd h1 hnm
      · intro h
        exact Or.inl ((hP name s g).mpr h)

theorem add_teacher_keys_sub (m : Manager) (nm st : String) (gr : List String) (x : String)
    (hx : x ∈ (add_teacher m nm st gr).1.teachers.map (·.1)) :
    x ∈ m.teachers.map (·.1) ∨ x = nm := by
  unfold add_teacher at hx
  by_cases hvalid : nm = "" ∨ st = "" ∨ gr = []
  · rw [if_pos hvalid] at hx; exact Or.inl hx
  · rw [if_neg hvalid] at hx
    simp only at hx
    by_cases hfresh : dget m.teachers nm = none
    · rw [keys_dset_new _ _ _ ((dget_eq_none_iff _ _).mp hfresh)] at hx
      rcases List.mem_append.mp hx with h | h
      · exact Or.inl h
      · exact Or.inr (List.mem_singleton.mp h)
    · unfold dset at hx
      rw [if_pos (Option.isSome_iff_ne_none.mpr hfresh)] at hx
      rw [List.map_map] at hx
      have : x ∈ m.teachers.map (·.1) ∨ x = nm := by
        rcases List.mem_map.mp hx with ⟨q, hq, hxq⟩
        by_cases hqk : q.1 = nm
        · right
          simp [hqk] at hxq
          exact hxq.symm
        · left
          refine List.mem_map.mpr ⟨q, hq, ?_⟩
          simpa [hqk] using hxq
      exact this

theorem runRegs_coherent : ∀ (regs : List (String × String × List String)) (m : Manager),
    IndexCoherent m → (∀ rg ∈ regs, rg.1 ∉ m.teachers.map (·.1)) →
    (regs.map (·.1)).Nodup → IndexCoherent (runRegs m regs) := by
  intro regs
  induction regs with
  | nil => intro m hP _ _; exact hP
  | cons rg rest ih =>
    intro m hP hfresh hnd
    have hfresh0 : dget m.teachers rg.1 = none :=
      (dget_eq_none_iff _ _).mpr (hfresh rg (by simp))
    have hP1 : IndexCoherent (add_teacher m rg.1 rg.2.1 rg.2.2).1 :=
      add_teacher_coherent m rg.1 rg.2.1 rg.2.2 hP hfresh0
    have hnd1 : (rest.map (·.1)).Nodup := (List.nodup_cons.mp hnd).2
    have hne : rg.1 ∉ rest.map (·.1) := (List.nodup_cons.mp hnd).1
    refine ih (add_teacher m rg.1 rg.2.1 rg.2.2).1 hP1 ?_ hnd1
    intro rg' hrg' hmem
    rcases add_teacher_keys_sub m rg.1 rg.2.1 rg.2.2 rg'.1 hmem with h | h
    · exact hfresh rg' (by simp [hrg']) h
    · exact hne (h ▸ List.mem_map.mpr ⟨rg', hrg', rfl⟩)

theorem initManager_coherent : IndexCoherent initManager := by
  intro name s g
  simp [initManager, dget]

/-- C8 (amended): after any sequence of `register` calls whose names are
pairwise distinct (no re-registration under an existing name), a teacher's
name appears in the qualification-index list for `(s, g)` iff that teacher's
current subject set contains `s` and current grade-band set contains `g`.
(Under re-registration the stale old index entries break the claim as stated;
see the counterexample.) -/
theorem qualification_index_invariant
    (regs : List (String × String × List String))
    (hnd : (regs.map (·.1)).Nodup) (name s g : String) :
    name ∈ (dget (runRegs initManager regs).subject_grade_teachers (s, g)).getD [] ↔
    ∃ t, dget (runRegs initManager regs).teachers name = some t ∧
      s ∈ t.subjects ∧ g ∈ t.grades :=
  runRegs_coherent regs initManager initManager_coherent (by intro rg _ h; simp [initManager] at h) hnd
    name s g

/-- Witness for C8 (amended) on a single concrete registration. -/
theorem qualification_index_invariant_witness :
    (([("T", "Math", ["1-5"])].map (·.1)).Nodup : Prop) ∧
    ("T" ∈ (dget (runRegs initManager [("T", "Math", ["1-5"])]).subject_grade_teachers
        ("Math", "1-5")).getD [] ↔
      ∃ t, dget (runRegs initManager [("T", "Math", ["1-5"])]).teachers "T" = some t ∧
        "Math" ∈ t.subjects ∧ "1-5" ∈ t.grades) :=
  ⟨by decide, qualification_index_invariant [("T", "Math", ["1-5"])] (by decide) "T" "Math" "1-5"⟩

/-- Counterexample to C8 as stated: re-registering `"T"` (from subjects
`{Math}` to `{English}`) leaves the stale index entry for `("Math", "1-5")`,
so membership in the index list no longer implies membership in the teacher's
current subject set. -/
theorem qualification_index_stale_cex :
    ¬ (∀ name s g,
      name ∈ (dget (runRegs initManager
          [("T", "Math", ["1-5"]), ("T", "English", ["1-5"])]).subject_grade_teachers
        (s, g)).getD [] ↔
      ∃ t, dget (runRegs initManager
          [("T", "Math", ["1-5"]), ("T", "English", ["1-5"])]).teachers name = some t ∧
        s ∈ t.subjects ∧ g ∈ t.grades) := by
  intro h
  have hin : "T" ∈ (dget (runRegs initManager
      [("T", "Math", ["1-5"]), ("T", "English", ["1-5"])]).subject_grade_teachers
      ("Math", "1-5")).getD [] := by decide
  obtain ⟨t, ht, hs, _⟩ := (h "T" "Math" "1-5").mp hin
  have ht0 : dget (runRegs initManager
      [("T", "Math", ["1-5"]), ("T", "English", ["1-5"])]).teachers "T" =
      some ⟨"T", ["English"], ["1-5"], []⟩ := by decide
  rw [ht0] at ht
  injection ht with ht
  rw [← ht] at hs
  exact absurd hs (by decide)

/-! ### C3 and C9: what validation failures do (and do not) touch -/

theorem dget_map_value {K V W : Type} [DecidableEq K] (l : List (K × V)) (f : V → W) (k : K) :
    dget (l.map (fun q => (q.1, f q.2))) k = (dget l k).map f := by
  induction l with
  | nil => simp [dget]
  | cons q rest ih =>
    by_cases hqk : q.1 = k
    · simp [List.map_cons, dget_cons, hqk]
    · simp [List.map_cons, dget_cons, hqk, ih]

theorem dget2_init (days slots : List String) (d s : String) :
    dget2 (initialize_schedule days slots) d s =
      if d ∈ days ∧ s ∈ slots then some "" else none := by
  unfold initialize_schedule dget2
  rw [dget_map_self]
  by_cases hd : d ∈ days
  · rw [if_pos hd]
    simp only [Option.some_bind]
    rw [dget_map_self]
    by_cases hsl : s ∈ slots
    · rw [if_pos hsl, if_pos ⟨hd, hsl⟩]
    · rw [if_neg hsl, if_neg (fun h => hsl h.2)]
  · rw [if_neg hd, if_neg (fun h => hd h.1)]
    rfl

theorem dget_reinit (l : List (String × Teacher)) (sch : Schedule) (k : String) :
    dget (l.map (fun q => (q.1, { q.2 with schedule := sch }))) k =
      (dget l k).map (fun t => { t with schedule := sch }) := by
  induction l with
  | nil => simp [dget]
  | cons q rest ih =>
    by_cases hqk : q.1 = k
    · simp [List.map_cons, dget_cons, hqk]
    · simp [List.map_cons, dget_cons, hqk, ih]

/-- The run's day list, as computed by `generate_timetable`. -/
def runDays (p : Params) : List String :=
  WEEKDAYS ++ (if p.saturday_option ≠ "Holiday" then ["Saturday"] else [])

/-- C3 (amended): every validation failure (bad time range, insufficient
hours, section-count mismatch) returns a failure status and produces no
output artifacts, but the caches of the previous successful run are NOT
cleared — the clearing happens only after all validation passes — so after a
failed generation call the previously cached class and teacher grids remain. -/
theorem validation_failure_keeps_caches
    (m : Manager) (r : RandGen) (p : Params) (start_hour end_hour : Int)
    (hs : parse_time p.start_time = some start_hour)
    (he : parse_time p.end_time = some end_hour) :
    (end_hour ≤ start_hour →
      generate_timetable m r p = ("❌ End time must be after start time", m, r)) ∧
    (start_hour < end_hour → end_hour - start_hour < (p.periods_per_day : Int) →
      generate_timetable m r p =
        ("❌ Not enough hours (" ++ toString (end_hour - start_hour) ++ ") for "
          ++ toString p.periods_per_day ++ " periods", m, r)) ∧
    (start_hour < end_hour → (p.periods_per_day : Int) ≤ end_hour - start_hour →
      (classList (p.selected_sections.take 4)).length ≠ 48 →
      (generate_timetable m r p).1 =
        "❌ Expected 48 classes (12 grades × 4 sections), got "
          ++ toString (classList (p.selected_sections.take 4)).length ++ ". Adjust sections." ∧
      (generate_timetable m r p).2.1.timetable_cache = m.timetable_cache ∧
      (generate_timetable m r p).2.1.teacher_timetable = m.teacher_timetable) := by
  refine ⟨?_, ?_, ?_⟩
  · intro hle
    simp only [generate_timetable, hs, he]
    rw [if_pos hle]
  · intro hlt hshort
    simp only [generate_timetable, hs, he]
    rw [if_neg (not_le.mpr hlt), if_pos hshort]
  · intro hlt hok hlen
    simp only [generate_timetable, hs, he]
    rw [if_neg (not_le.mpr hlt), if_neg (not_lt.mpr hok), if_pos hlen]
    exact ⟨rfl, rfl, rfl⟩

/-- Witness for C3 (amended): a concrete section-count failure leaves a
nonempty cache untouched. -/
theorem validation_failure_keeps_caches_witness :
    parse_time "8:00-8:50 AM" = some 8 ∧ parse_time "10:00-10:50 AM" = some 10 ∧
    (8 : Int) < 10 ∧ ((2 : Nat) : Int) ≤ 10 - 8 ∧ (classList (["A"].take 4)).length ≠ 48 ∧
    ((generate_timetable { initManager with timetable_cache := [("Grade 1 A", [])] } zeroGen
        ⟨["A"], [], 1, "8:00-8:50 AM", "10:00-10:50 AM", 2, "12:00-12:50 PM", "Holiday"⟩).2.1.timetable_cache
      = [("Grade 1 A", [])]) :=
  ⟨by decide, by decide, by decide, by decide, by decide,
    ((validation_failure_keeps_caches
        { initManager with timetable_cache := [("Grade 1 A", [])] } zeroGen
        ⟨["A"], [], 1, "8:00-8:50 AM", "10:00-10:50 AM", 2, "12:00-12:50 PM", "Holiday"⟩
        8 10 (by decide) (by decide)).2.2 (by decide) (by decide) (by decide)).2.1⟩

/-- The parameters of a concrete run (two periods, Half-Day Saturday, no
activities, lunch outside the slot list). -/
def pPrev : Params :=
  ⟨["A", "B", "C", "D"], [], 1, "8:00-8:50 AM", "10:00-10:50 AM", 2, "12:00-12:50 PM", "Half Day"⟩

/-- The per-class context `generate_timetable` builds for `pPrev`. -/
def cexCtx : Ctx :=
  ⟨["Monday", "Tuesday", "Wednesday", "Thursday", "Friday", "Saturday"],
   ["8:00-8:50 AM", "9:00-9:50 AM"], "12:00-12:50 PM", "Half Day", [], 1⟩

/-- The parameters and state of a smaller concrete previous successful run
(one period, Saturday holiday), used to exhibit cache retention. -/
def pSmall : Params :=
  ⟨["A", "B", "C", "D"], [], 1, "8:00-8:50 AM", "10:00-10:50 AM", 1, "12:00-12:50 PM", "Holiday"⟩

/-- The manager state after that successful run (48 cached class grids). -/
def smallRun : Manager := (generate_timetable initManager zeroGen pSmall).2.1

set_option maxRecDepth 40000 in
/-- Counterexample to C3 as stated: a generation call that fails time-range
validation right after a successful run leaves all 48 previously cached class
grids in place — the system does not end up holding "no class or teacher
grids at all". -/
theorem failed_generation_keeps_grids_cex :
    (generate_timetable smallRun zeroGen
        ⟨["A", "B", "C", "D"], [], 1, "3:00-3:50 PM", "8:00-8:50 AM", 7,
          "12:00-12:50 PM", "Holiday"⟩).1 = "❌ End time must be after start time" ∧
    (generate_timetable smallRun zeroGen
        ⟨["A", "B", "C", "D"], [], 1, "3:00-3:50 PM", "8:00-8:50 AM", 7,
          "12:00-12:50 PM", "Holiday"⟩).2.1.timetable_cache.length = 48 := by
  exact ⟨by decide, by decide⟩

/-- C9: a generate call that passes the time-range checks but fails the
48-class section-count validation has already reinitialized every registered
teacher's schedule to all-free for the new run's day×slot grid, while leaving
the previous run's cached class and teacher grids untouched. -/
theorem section_count_failure_reinitializes
    (m : Manager) (r : RandGen) (p : Params) (start_hour end_hour : Int)
    (hs : parse_time p.start_time = some start_hour)
    (he : parse_time p.end_time = some end_hour)
    (hlt : start_hour < end_hour)
    (hok : (p.periods_per_day : Int) ≤ end_hour - start_hour)
    (hlen : (classList (p.selected_sections.take 4)).length ≠ 48) :
    (generate_timetable m r p).1 =
      "❌ Expected 48 classes (12 grades × 4 sections), got "
        ++ toString (classList (p.selected_sections.take 4)).length ++ ". Adjust sections." ∧
    (generate_timetable m r p).2.1.teachers = m.teachers.map (fun q =>
      (q.1, { q.2 with schedule :=
        initialize_schedule (runDays p) (create_time_slots start_hour end_hour p.periods_per_day) })) ∧
    (∀ n t, dget (generate_timetable m r p).2.1.teachers n = some t →
      t.schedule =
        initialize_schedule (runDays p) (create_time_slots start_hour end_hour p.periods_per_day)) ∧
    (∀ d s', d ∈ runDays p → s' ∈ create_time_slots start_hour end_hour p.periods_per_day →
      dget2 (initialize_schedule (runDays p)
        (create_time_slots start_hour end_hour p.periods_per_day)) d s' = some "") ∧
    (generate_timetable m r p).2.1.timetable_cache = m.timetable_cache ∧
    (generate_timetable m r p).2.1.teacher_timetable = m.teacher_timetable := by
  have hteq : (generate_timetable m r p).2.1.teachers = m.teachers.map (fun q => (q.1, { q.2 with schedule := initialize_schedule (runDays p) (create_time_slots start_hour end_hour p.periods_per_day) })) := by
    simp only [generate_timetable, hs, he]
    rw [if_neg (not_le.mpr hlt), if_neg (not_lt.mpr hok), if_pos hlen]
    rfl
  refine ⟨?_, hteq, ?_, ?_, ?_, ?_⟩
  · simp only [generate_timetable, hs, he]
    rw [if_neg (not_le.mpr hlt), if_neg (not_lt.mpr hok), if_pos hlen]
  · intro n t ht
    rw [hteq, dget_reinit] at ht
    cases hmt : dget m.teachers n with
    | none => rw [hmt] at ht; cases ht
    | some t0 =>
      rw [hmt] at ht
      injection ht with ht
      rw [← ht]
  · intro d s' hd hsl
    rw [dget2_init, if_pos ⟨hd, hsl⟩]
  · simp only [generate_timetable, hs, he]
    rw [if_neg (not_le.mpr hlt), if_neg (not_lt.mpr hok), if_pos hlen]
  · simp only [generate_timetable, hs, he]
    rw [if_neg (not_le.mpr hlt), if_neg (not_lt.mpr hok), if_pos hlen]

/-- Witness for C9: a single-section run on a one-teacher registry fails the
48-class check with the teacher's schedule reset to all-free. -/
theorem section_count_failure_reinitializes_witness :
    parse_time "8:00-8:50 AM" = some 8 ∧ parse_time "10:00-10:50 AM" = some 10 ∧
    (8 : Int) < 10 ∧ ((2 : Nat) : Int) ≤ 10 - 8 ∧ (classList (["A"].take 4)).length ≠ 48 ∧
    (∀ n t, dget (generate_timetable (add_teacher initManager "T" "English" ["1-5"]).1 zeroGen
        ⟨["A"], [], 1, "8:00-8:50 AM", "10:00-10:50 AM", 2, "12:00-12:50 PM", "Holiday"⟩).2.1.teachers
        n = some t →
      t.schedule = initialize_schedule
        (runDays ⟨["A"], [], 1, "8:00-8:50 AM", "10:00-10:50 AM", 2, "12:00-12:50 PM", "Holiday"⟩)
        (create_time_slots 8 10 2)) :=
  ⟨by decide, by decide, by decide, by decide, by decide,
    (section_count_failure_reinitializes (add_teacher initManager "T" "English" ["1-5"]).1 zeroGen
      ⟨["A"], [], 1, "8:00-8:50 AM", "10:00-10:50 AM", 2, "12:00-12:50 PM", "Holiday"⟩
      8 10 (by decide) (by decide) (by decide) (by decide) (by decide)).2.2.1⟩

/-! ### C5: teacher assignment and the written cell label -/

/-- Observation: a registered teacher's own schedule cell. -/
def tCell (m : Manager) (t d s : String) : Option String :=
  (dget m.teachers t).bind (fun te => dget2 te.schedule d s)

theorem dget2_assign (t : Teacher) (day slot cn d s : String) :
    dget2 (t.assign day slot cn).schedule d s =
      if d = day ∧ s = slot then (dget2 t.schedule d s).map (fun _ => cn)
      else dget2 t.schedule d s := by
  have houter : dget (t.assign day slot cn).schedule d =
      if d = day then
        (dget t.schedule d).map
          (fun row => row.map (fun q => if q.1 = slot then (q.1, cn) else q))
      else dget t.schedule d := by
    have h := dget_adjust t.schedule day
      (fun row => row.map (fun q => if q.1 = slot then (q.1, cn) else q)) d
    by_cases hd : d = day
    · rw [if_pos hd] at h ⊢
      rw [← hd] at h ⊢
      exact h
    · rw [if_neg hd] at h ⊢
      exact h
  unfold dget2
  rw [houter]
  by_cases hd : d = day
  · rw [if_pos hd]
    cases hrow : dget t.schedule d with
    | none =>
      by_cases hs : s = slot
      · rw [if_pos ⟨hd, hs⟩]; rfl
      · rw [if_neg (fun hc => hs hc.2)]; rfl
    | some row =>
      have hinner : dget (row.map (fun q => if q.1 = slot then (q.1, cn) else q)) s =
          if s = slot then (dget row s).map (fun _ => cn) else dget row s := by
        have h := dget_adjust row slot (fun _ => cn) s
        exact h
      simp only [Option.map_some', Option.some_bind]
      rw [hinner]
      by_cases hs : s = slot
      · rw [if_pos hs, if_pos ⟨hd, hs⟩]
      · rw [if_neg hs, if_neg (fun hc => hs hc.2)]
  · rw [if_neg hd, if_neg (fun hc => hd hc.1)]

theorem dget2_tset (g : Grid) (slot day v s d : String) :
    dget2 (tset g slot day v) s d =
      if s = slot ∧ d = day then (dget2 g s d).map (fun _ => v) else dget2 g s d := by
  have houter : dget (tset g slot day v) s =
      if s = slot then
        (dget g s).map (fun row => row.map (fun q => if q.1 = day then (q.1, v) else q))
      else dget g s := by
    unfold tset
    exact dget_adjust g slot (fun row => row.map (fun q => if q.1 = day then (q.1, v) else q)) s
  unfold dget2
  rw [houter]
  by_cases hsl : s = slot
  · rw [if_pos hsl]
    cases hrow : dget g s with
    | none =>
      by_cases hd : d = day
      · rw [if_pos ⟨hsl, hd⟩]; rfl
      · rw [if_neg (fun hc => hd hc.2)]; rfl
    | some row =>
      have hinner : dget (row.map (fun q => if q.1 = day then (q.1, v) else q)) d =
          if d = day then (dget row d).map (fun _ => v) else dget row d :=
        dget_adjust row day (fun _ => v) d
      simp only [Option.map_some', Option.some_bind]
      rw [hinner]
      by_cases hd : d = day
      · rw [if_pos hd, if_pos ⟨hsl, hd⟩]
      · rw [if_neg hd, if_neg (fun hc => hd hc.2)]
  · rw [if_neg hsl, if_neg (fun hc => hsl hc.1)]

theorem dget_assignmap (l : List (String × Teacher)) (nm day slot cn : String) (k : String) :
    dget (l.map (fun p => if p.1 = nm then (p.1, p.2.assign day slot cn) else p)) k =
      if k = nm then (dget l k).map (fun te => te.assign day slot cn) else dget l k :=
  dget_adjust l nm (fun te => te.assign day slot cn) k

theorem mem_available_means (m : Manager) (subject gk day slot name : String)
    (h : name ∈ get_available_teachers m subject gk day slot) :
    ∃ te, dget m.teachers name = some te ∧ (dget2 te.schedule day slot).getD "" = "" := by
  unfold get_available_teachers at h
  obtain ⟨_, hpred⟩ := List.mem_filter.mp h
  cases hte : dget m.teachers name with
  | none => rw [hte] at hpred; simp at hpred
  | some te =>
    rw [hte] at hpred
    simp only [Option.map_some', Option.getD_some, Teacher.is_available] at hpred
    exact ⟨te, rfl, by simpa using hpred⟩

theorem assign_teacher_tbd (m : Manager) (r : RandGen) (subject gk day slot cn : String)
    (h : get_available_teachers m subject gk day slot = []) :
    assign_teacher m r subject gk day slot cn = ("TBD", m, r) := by
  simp only [assign_teacher]
  rw [if_pos h]

theorem assign_teacher_chosen (m : Manager) (r : RandGen) (subject gk day slot cn : String)
    (h : get_available_teachers m subject gk day slot ≠ []) :
    (assign_teacher m r subject gk day slot cn).1 ∈
      get_available_teachers m subject gk day slot ∧
    (assign_teacher m r subject gk day slot cn).2.1 =
      { m with teachers := m.teachers.map (fun p =>
          if p.1 = (assign_teacher m r subject gk day slot cn).1 then
            (p.1, p.2.assign day slot cn) else p) } := by
  simp only [assign_teacher, RandGen.next]
  rw [if_neg h]
  exact ⟨getD_mod_mem _ _ _ h, rfl⟩

theorem tCell_assign_teacher (m : Manager) (r : RandGen)
    (subject gk day slot cn : String)
    (h : get_available_teachers m subject gk day slot ≠ []) (t d s : String) :
    tCell (assign_teacher m r subject gk day slot cn).2.1 t d s =
      if t = (assign_teacher m r subject gk day slot cn).1 ∧ d = day ∧ s = slot then
        (tCell m t d s).map (fun _ => cn)
      else tCell m t d s := by
  obtain ⟨_, hm'⟩ := assign_teacher_chosen m r subject gk day slot cn h
  rw [hm']
  unfold tCell
  simp only
  rw [dget_assignmap]
  by_cases ht : t = (assign_teacher m r subject gk day slot cn).1
  · rw [if_pos ht]
    cases hte : dget m.teachers t with
    | none =>
      by_cases hds : d = day ∧ s = slot
      · rw [if_pos ⟨ht, hds.1, hds.2⟩]; rfl
      · rw [if_neg (fun hc => hds ⟨hc.2.1, hc.2.2⟩)]; rfl
    | some te =>
      simp only [Option.map_some', Option.some_bind]
      rw [dget2_assign]
      by_cases hds : d = day ∧ s = slot
      · rw [if_pos hds, if_pos ⟨ht, hds.1, hds.2⟩]
      · rw [if_neg hds, if_neg (fun hc => hds ⟨hc.2.1, hc.2.2⟩)]
  · rw [if_neg ht, if_neg (fun hc => ht hc.1)]

theorem Rbook.of_free (cn : String) (o : Option String) (h : o.getD "" = "") :
    Rbook cn o (o.map (fun _ => cn)) := by
  cases o with
  | none => exact Or.inl rfl
  | some w => exact Or.inr ⟨h, rfl⟩

/-- Any single teacher assignment either leaves a schedule cell unchanged or
books a previously free cell with the class label. -/
theorem assign_teacher_Rbook (m : Manager) (r : RandGen)
    (subject gk day slot cn t d s : String) :
    Rbook cn (tCell m t d s) (tCell (assign_teacher m r subject gk day slot cn).2.1 t d s) := by
  by_cases h : get_available_teachers m subject gk day slot = []
  · rw [assign_teacher_tbd m r subject gk day slot cn h]
    exact Rbook.rb_refl cn _
  · rw [tCell_assign_teacher m r subject gk day slot cn h t d s]
    by_cases hc : t = (assign_teacher m r subject gk day slot cn).1 ∧ d = day ∧ s = slot
    · rw [if_pos hc]
      obtain ⟨ht, hd, hs⟩ := hc
      subst ht
      obtain ⟨hmem, _⟩ := assign_teacher_chosen m r subject gk day slot cn h
      obtain ⟨te, hte, hfree⟩ := mem_available_means m subject gk day slot _ hmem
      have htm : tCell m (assign_teacher m r subject gk day slot cn).1 d s =
          dget2 te.schedule day slot := by
        unfold tCell
        rw [hte, hd, hs]
        rfl
      rw [htm]
      exact Rbook.of_free cn _ hfree
    · rw [if_neg hc]
      exact Rbook.rb_refl cn _

/-- A teacher assignment at `(day, slot)` leaves every schedule cell at any
other `(d, s)` unchanged. -/
theorem assign_teacher_tCell_ne (m : Manager) (r : RandGen)
    (subject gk day slot cn t d s : String) (h : d ≠ day ∨ s ≠ slot) :
    tCell (assign_teacher m r subject gk day slot cn).2.1 t d s = tCell m t d s := by
  by_cases he : get_available_teachers m subject gk day slot = []
  · rw [assign_teacher_tbd m r subject gk day slot cn he]
  · rw [tCell_assign_teacher m r subject gk day slot cn he t d s,
      if_neg (fun hc => h.elim (fun h1 => h1 hc.2.1) (fun h2 => h2 hc.2.2))]

/-- C5 (amended): when no qualified teacher is listed and free at
`(day, slot)`, `assign_teacher` returns the literal `"TBD"` and mutates no
teacher's schedule; otherwise it returns a teacher from the available list
and sets exactly that teacher's schedule cell at `(day, slot)` to the class
label, leaving every other cell unchanged.  The grid cell written by the fill
loop is `"{subject} ({result})"` — in the unassignable case the literal
`"{subject} (TBD)"`, not the bare `"TBD"`. -/
theorem teacher_assignment_spec
    (m : Manager) (r : RandGen) (subject grade_key day slot class_name : String) :
    (get_available_teachers m subject grade_key day slot = [] →
      assign_teacher m r subject grade_key day slot class_name = ("TBD", m, r)) ∧
    (get_available_teachers m subject grade_key day slot ≠ [] →
      (assign_teacher m r subject grade_key day slot class_name).1 ∈
        get_available_teachers m subject grade_key day slot ∧
      (∀ t d s,
        tCell (assign_teacher m r subject grade_key day slot class_name).2.1 t d s =
          if t = (assign_teacher m r subject grade_key day slot class_name).1 ∧
              d = day ∧ s = slot then
            (tCell m t d s).map (fun _ => class_name)
          else tCell m t d s)) ∧
    (∀ (tt : Grid) (pool core_subjects : List String) (time : String),
      dget2 (coreStep grade_key class_name day core_subjects ⟨m, r, tt, pool⟩ time).tt time day =
        (dget2 tt time day).map (fun _ =>
          ((randChoice r core_subjects).1.getD "") ++ " (" ++
            (assign_teacher m (randChoice r core_subjects).2
              ((randChoice r core_subjects).1.getD "") grade_key day time class_name).1 ++ ")")) := by
  refine ⟨?_, ?_, ?_⟩
  · intro h
    exact assign_teacher_tbd m r subject grade_key day slot class_name h
  · intro h
    exact ⟨(assign_teacher_chosen m r subject grade_key day slot class_name h).1,
      fun t d s => tCell_assign_teacher m r subject grade_key day slot class_name h t d s⟩
  · intro tt pool core_subjects time
    show dget2 (tset tt time day _) time day = _
    rw [dget2_tset, if_pos ⟨rfl, rfl⟩]

/-- Counterexample to C5 as stated: with no teacher registered every
assignment is unassignable, yet the class grid built by the per-class loop
(here on the context `generate_timetable` derives from `pPrev`) holds
`"English (TBD)"` — the cell occupant is never the literal `"TBD"`. -/
theorem tbd_cell_not_literal_cex :
    cexCtx = ⟨runDays pPrev, create_time_slots 8 10 2, pPrev.lunch_time, pPrev.saturday_option,
      pPrev.activity_subjects, pPrev.activity_count⟩ ∧
    initManager.teachers = [] ∧
    dget2 (processClass cexCtx initManager zeroGen "Grade 1 A").2.2 "8:00-8:50 AM" "Monday" =
      some "English (TBD)" ∧
    ("English (TBD)" : String) ≠ "TBD" := by
  exact ⟨by decide, by decide, by decide, by decide⟩

/-- Witness for C5 on both branches: the empty registry yields `"TBD"` with an
unchanged state, and a one-teacher registry yields that teacher. -/
theorem teacher_assignment_spec_witness :
    (get_available_teachers initManager "English" "1-5" "Monday" "8:00-8:50 AM" = []) ∧
    assign_teacher initManager zeroGen "English" "1-5" "Monday" "8:00-8:50 AM" "Grade 1 A" =
      ("TBD", initManager, zeroGen) ∧
    (get_available_teachers (add_teacher initManager "T" "English" ["1-5"]).1 "English" "1-5"
        "Monday" "8:00-8:50 AM" ≠ []) ∧
    (assign_teacher (add_teacher initManager "T" "English" ["1-5"]).1 zeroGen "English" "1-5"
        "Monday" "8:00-8:50 AM" "Grade 1 A").1 ∈
      get_available_teachers (add_teacher initManager "T" "English" ["1-5"]).1 "English" "1-5"
        "Monday" "8:00-8:50 AM" :=
  ⟨by decide,
   (teacher_assignment_spec initManager zeroGen "English" "1-5" "Monday" "8:00-8:50 AM"
      "Grade 1 A").1 (by decide),
   by decide,
   ((teacher_assignment_spec (add_teacher initManager "T" "English" ["1-5"]).1 zeroGen "English"
      "1-5" "Monday" "8:00-8:50 AM" "Grade 1 A").2.1 (by decide)).1⟩

/-! ### C2: successful generation produces exactly the expected grids -/

theorem keys_map_value {K V W : Type} (l : List (K × V)) (f : V → W) :
    (l.map (fun q => (q.1, f q.2))).map (·.1) = l.map (·.1) := by
  induction l with
  | nil => rfl
  | cons q rest ih => simp [ih]

theorem keys_assignmap (l : List (String × Teacher)) (nm day slot cn : String) :
    (l.map (fun p => if p.1 = nm then (p.1, p.2.assign day slot cn) else p)).map (·.1) =
      l.map (·.1) :=
  keys_adjust l nm (fun te => te.assign day slot cn)

theorem assign_teacher_keys (m : Manager) (r : RandGen)
    (subject gk day slot cn : String) :
    (assign_teacher m r subject gk day slot cn).2.1.teachers.map (·.1) =
      m.teachers.map (·.1) := by
  by_cases h : get_available_teachers m subject gk day slot = []
  · rw [assign_teacher_tbd m r subject gk day slot cn h]
  · rw [(assign_teacher_chosen m r subject gk day slot cn h).2]
    exact keys_assignmap m.teachers _ day slot cn

theorem activityStep_keys (gk cn : String) (opts : List String) (st : PState)
    (dt : String × String) :
    (activityStep gk cn opts st dt).m.teachers.map (·.1) = st.m.teachers.map (·.1) := by
  unfold activityStep
  exact assign_teacher_keys st.m _ _ gk dt.1 dt.2 cn

theorem coreStep_keys (gk cn day : String) (cs : List String) (st : CState) (time : String) :
    (coreStep gk cn day cs st time).m.teachers.map (·.1) = st.m.teachers.map (·.1) := by
  unfold coreStep
  exact assign_teacher_keys st.m _ _ gk day time cn

theorem foldl_activityStep_keys (gk cn : String) (opts : List String)
    (L : List (String × String)) (c : PState) :
    ((L.foldl (activityStep gk cn opts) c).m.teachers.map (·.1)) = c.m.teachers.map (·.1) := by
  refine foldl_pres (fun x => x.m.teachers.map (·.1) = c.m.teachers.map (·.1)) _ L c ?_ rfl
  intro s' a _ hP
  rw [activityStep_keys gk cn opts s' a, hP]

theorem foldl_coreStep_keys (gk cn day : String) (cs : List String)
    (L : List String) (c : CState) :
    ((L.foldl (coreStep gk cn day cs) c).m.teachers.map (·.1)) = c.m.teachers.map (·.1) := by
  refine foldl_pres (fun x => x.m.teachers.map (·.1) = c.m.teachers.map (·.1)) _ L c ?_ rfl
  intro s' a _ hP
  rw [coreStep_keys gk cn day cs s' a, hP]

theorem activityPhase_keys (ctx : Ctx) (gk cn : String) (st : PState) :
    (activityPhase ctx gk cn st).m.teachers.map (·.1) = st.m.teachers.map (·.1) := by
  unfold activityPhase
  by_cases hb : ctx.activity_subjects ≠ [] ∧
      0 < min ctx.activity_count (ctx.days.length * ctx.time_slots.length)
  · rw [if_pos hb]
    exact foldl_activityStep_keys gk cn ctx.activity_subjects _ _
  · rw [if_neg hb]

theorem coreDay_keys (gk cn : String) (cs : List String) (st : PState) (day : String) :
    (coreDay gk cn cs st day).m.teachers.map (·.1) = st.m.teachers.map (·.1) := by
  unfold coreDay
  exact foldl_coreStep_keys gk cn day cs _ _

theorem corePhase_keys (ctx : Ctx) (gk cn : String) (st : PState) :
    (corePhase ctx gk cn st).m.teachers.map (·.1) = st.m.teachers.map (·.1) := by
  unfold corePhase
  refine foldl_pres (fun x => x.m.teachers.map (·.1) = st.m.teachers.map (·.1))
    (coreDay gk cn (NCERT_SUBJECTS gk)) _ _ ?_ rfl
  intro s' a _ hP
  rw [coreDay_keys gk cn (NCERT_SUBJECTS gk) s' a, hP]

theorem processClass_teacher_keys (ctx : Ctx) (m : Manager) (r : RandGen) (cn : String) :
    (processClass ctx m r cn).1.teachers.map (·.1) = m.teachers.map (·.1) := by
  unfold processClass
  rw [corePhase_keys, activityPhase_keys]

theorem runFrom_teacher_keys (ctx : Ctx) (classes : List String)
    (st : Manager × RandGen × List (String × Grid)) :
    (runFrom ctx st classes).1.teachers.map (·.1) = st.1.teachers.map (·.1) := by
  unfold runFrom
  refine foldl_pres (fun x => x.1.teachers.map (·.1) = st.1.teachers.map (·.1))
    (classStep ctx) _ _ ?_ rfl
  intro s' a _ hP
  show (processClass ctx s'.1 s'.2.1 a).1.teachers.map (·.1) = _
  rw [processClass_teacher_keys, hP]

theorem runFrom_cache_keys (ctx : Ctx) :
    ∀ (classes : List String) (st : Manager × RandGen × List (String × Grid)),
      classes.Nodup → (∀ c ∈ classes, c ∉ st.2.2.map (·.1)) →
      (runFrom ctx st classes).2.2.map (·.1) = st.2.2.map (·.1) ++ classes := by
  intro classes
  induction classes with
  | nil => intro st _ _; simp [runFrom]
  | cons c rest ih =>
    intro st hnd hdisj
    have hc : c ∉ st.2.2.map (·.1) := hdisj c (by simp)
    have hstep : (classStep ctx st c).2.2.map (·.1) = st.2.2.map (·.1) ++ [c] :=
      keys_dset_new st.2.2 c _ hc
    have hrest : ∀ c' ∈ rest, c' ∉ (classStep ctx st c).2.2.map (·.1) := by
      intro c' hc' hmem
      rw [hstep] at hmem
      rcases List.mem_append.mp hmem with h | h
      · exact hdisj c' (by simp [hc']) h
      · rcases List.mem_singleton.mp h with rfl
        exact (List.nodup_cons.mp hnd).1 hc'
    show (runFrom ctx (classStep ctx st c) rest).2.2.map (·.1) = _
    rw [ih (classStep ctx st c) (List.nodup_cons.mp hnd).2 hrest, hstep,
      List.append_assoc, List.singleton_append]

theorem teacher_fold_keys (ctx : Ctx) :
    ∀ (l : List (String × Teacher)) (acc : List (String × Schedule)),
      (l.map (·.1)).Nodup → (∀ q ∈ l, q.1 ∉ acc.map (·.1)) →
      ((l.foldl (fun acc q => dset acc q.1 (teacherGrid ctx q.2)) acc).map (·.1)) =
        acc.map (·.1) ++ l.map (·.1) := by
  intro l
  induction l with
  | nil => intro acc _ _; simp
  | cons q rest ih =>
    intro acc hnd hdisj
    have hq : q.1 ∉ acc.map (·.1) := hdisj q (by simp)
    have hstep : (dset acc q.1 (teacherGrid ctx q.2)).map (·.1) = acc.map (·.1) ++ [q.1] :=
      keys_dset_new acc q.1 _ hq
    have hrest : ∀ q' ∈ rest, q'.1 ∉ (dset acc q.1 (teacherGrid ctx q.2)).map (·.1) := by
      intro q' hq' hmem
      rw [hstep] at hmem
      rcases List.mem_append.mp hmem with h | h
      · exact hdisj q' (by simp [hq']) h
      · have hmem2 : q'.1 ∈ rest.map (·.1) := List.mem_map.mpr ⟨q', hq', rfl⟩
        rw [List.mem_singleton.mp h] at hmem2
        exact (List.nodup_cons.mp hnd).1 hmem2
    rw [List.foldl_cons, ih (dset acc q.1 (teacherGrid ctx q.2)) (List.nodup_cons.mp hnd).2 hrest,
      hstep, List.append_assoc, List.singleton_append, List.map_cons]

theorem classList_length (secs : List String) : (classList secs).length = 12 * secs.length := by
  unfold classList
  rw [List.length_flatten, List.map_map]
  have : (List.range 12).map (List.length ∘ fun i =>
      secs.map (fun sec => "Grade " ++ toString (i + 1) ++ " " ++ sec)) =
      (List.range 12).map (fun _ => secs.length) := by
    refine List.map_congr_left ?_
    intro i _
    simp [Function.comp, List.length_map]
  rw [this]
  simp [List.map_const', List.sum_replicate, smul_eq_mul, List.length_range]
  ring

theorem generateSuccess_spec (ctx : Ctx) (m2 : Manager) (r : RandGen) (classes : List String)
    (hnd : classes.Nodup) (hkeys : (m2.teachers.map (·.1)).Nodup) :
    (generateSuccess ctx m2 r classes).1 = "✅ Generation Complete" ∧
    (generateSuccess ctx m2 r classes).2.1.timetable_cache.map (·.1) = classes ∧
    (generateSuccess ctx m2 r classes).2.1.teacher_timetable.map (·.1) =
      m2.teachers.map (·.1) := by
  have hck : (runClasses ctx m2 r classes).2.2.map (·.1) = classes := by
    simp only [runClasses]
    rw [runFrom_cache_keys ctx classes (m2, r, []) hnd (by simp)]
    simp
  have htk : (runClasses ctx m2 r classes).1.teachers.map (·.1) = m2.teachers.map (·.1) := by
    simp only [runClasses]
    exact runFrom_teacher_keys ctx classes (m2, r, [])
  refine ⟨rfl, hck, ?_⟩
  show (((runClasses ctx m2 r classes).1.teachers.foldl
      (fun acc q => dset acc q.1 (teacherGrid ctx q.2)) []).map (·.1)) = _
  rw [teacher_fold_keys ctx ((runClasses ctx m2 r classes).1.teachers) []
    (by rw [htk]; exact hkeys) (by simp)]
  simp [htk]

/-- The cleared, schedule-reinitialized manager state entering the class loop. -/
def reinitManager (m : Manager) (days slots : List String) : Manager :=
  { m with
      teachers := m.teachers.map (fun q =>
        (q.1, { q.2 with schedule := initialize_schedule days slots })),
      timetable_cache := [],
      teacher_timetable := [] }

/-- The per-run context `generate_timetable` hands to the class loop. -/
def mkCtx (p : Params) (slots : List String) : Ctx :=
  ⟨runDays p, slots, p.lunch_time, p.saturday_option, p.activity_subjects, p.activity_count⟩

theorem keys_reinit (l : List (String × Teacher)) (sch : Schedule) :
    ((l.map (fun q => (q.1, { q.2 with schedule := sch }))).map (·.1)) = l.map (·.1) := by
  induction l with
  | nil => rfl
  | cons q rest ih => simp [ih]

theorem reinitManager_keys (m : Manager) (days slots : List String) :
    (reinitManager m days slots).teachers.map (·.1) = m.teachers.map (·.1) := by
  unfold reinitManager
  exact keys_reinit m.teachers (initialize_schedule days slots)

/-- C2: for every parameter set passing validation (end hour > start hour,
hour span ≥ periods per day, exactly 4 distinct selected sections after
truncation, yielding the 48 distinct class-sections), `generate_timetable`
returns the success status, populates exactly the 48 class grids in the
timetable cache (one per class-section, in order), and exactly one grid per
registered teacher in the teacher-timetable cache. -/
theorem generation_success_shape
    (m : Manager) (r : RandGen) (p : Params) (start_hour end_hour : Int)
    (hs : parse_time p.start_time = some start_hour)
    (he : parse_time p.end_time = some end_hour)
    (hlt : start_hour < end_hour)
    (hok : (p.periods_per_day : Int) ≤ end_hour - start_hour)
    (hsec : (p.selected_sections.take 4).length = 4)
    (hnd : (classList (p.selected_sections.take 4)).Nodup)
    (hkeys : (m.teachers.map (·.1)).Nodup) :
    (generate_timetable m r p).1 = "✅ Generation Complete" ∧
    (generate_timetable m r p).2.1.timetable_cache.map (·.1) =
      classList (p.selected_sections.take 4) ∧
    (generate_timetable m r p).2.1.timetable_cache.length = 48 ∧
    (generate_timetable m r p).2.1.teacher_timetable.map (·.1) = m.teachers.map (·.1) := by
  have hlen : (classList (p.selected_sections.take 4)).length = 48 := by
    rw [classList_length, hsec]
  have hlen' : ¬ (classList (p.selected_sections.take 4)).length ≠ 48 := not_ne_iff.mpr hlen
  have hred : generate_timetable m r p =
      generateSuccess (mkCtx p (create_time_slots start_hour end_hour p.periods_per_day))
        (reinitManager m (runDays p) (create_time_slots start_hour end_hour p.periods_per_day))
        r (classList (p.selected_sections.take 4)) := by
    simp only [generate_timetable, hs, he]
    rw [if_neg (not_le.mpr hlt), if_neg (not_lt.mpr hok), if_neg hlen']
    rfl
  have hkeys2 : (((reinitManager m (runDays p)
      (create_time_slots start_hour end_hour p.periods_per_day)).teachers.map (·.1)).Nodup) := by
    rw [reinitManager_keys]
    exact hkeys
  have hspec := generateSuccess_spec
    (mkCtx p (create_time_slots start_hour end_hour p.periods_per_day))
    (reinitManager m (runDays p) (create_time_slots start_hour end_hour p.periods_per_day))
    r (classList (p.selected_sections.take 4)) hnd hkeys2
  rw [hred]
  refine ⟨hspec.1, hspec.2.1, ?_, ?_⟩
  · have hl := congrArg List.length hspec.2.1
    rwa [List.length_map, hlen] at hl
  · rw [hspec.2.2]
    exact reinitManager_keys m _ _

/-- Witness for C2: a concrete valid parameter set on the empty registry
yields success and exactly the 48 class grids. -/
theorem generation_success_shape_witness :
    parse_time "8:00-8:50 AM" = some 8 ∧ parse_time "10:00-10:50 AM" = some 10 ∧
    (8 : Int) < 10 ∧ ((1 : Nat) : Int) ≤ 10 - 8 ∧
    ((["A", "B", "C", "D"].take 4).length = 4) ∧
    (classList (["A", "B", "C", "D"].take 4)).Nodup ∧
    ((initManager.teachers.map (·.1)).Nodup) ∧
    (generate_timetable initManager zeroGen pSmall).1 = "✅ Generation Complete" ∧
    (generate_timetable initManager zeroGen pSmall).2.1.timetable_cache.length = 48 :=
  ⟨by decide, by decide, by decide, by decide, by decide, by decide, by decide,
    (generation_success_shape initManager zeroGen pSmall 8 10 (by decide) (by decide)
      (by decide) (by decide) (by decide) (by decide) (by decide)).1,
    (generation_success_shape initManager zeroGen pSmall 8 10 (by decide) (by decide)
      (by decide) (by decide) (by decide) (by decide) (by decide)).2.2.1⟩

/-! ### C1: no double-booking across a generation run -/

theorem activityStep_Rbook (gk cn : String) (opts : List String) (st : PState)
    (dt : String × String) (t d s : String) :
    Rbook cn (tCell st.m t d s) (tCell (activityStep gk cn opts st dt).m t d s) := by
  unfold activityStep
  exact assign_teacher_Rbook st.m _ _ gk dt.1 dt.2 cn t d s

theorem coreStep_Rbook (gk cn day : String) (cs : List String) (st : CState)
    (time : String) (t d s : String) :
    Rbook cn (tCell st.m t d s) (tCell (coreStep gk cn day cs st time).m t d s) := by
  unfold coreStep
  exact assign_teacher_Rbook st.m _ _ gk day time cn t d s

theorem foldl_rbook_cell {σ α : Type} (cn : String) (cell : σ → Option String)
    (f : σ → α → σ) (hstep : ∀ st a, Rbook cn (cell st) (cell (f st a))) :
    ∀ (L : List α) (st : σ), Rbook cn (cell st) (cell (L.foldl f st)) := by
  intro L
  induction L with
  | nil => intro st; exact Rbook.rb_refl cn _
  | cons a rest ih =>
    intro st
    exact Rbook.rb_trans cn _ _ _ (hstep st a) (ih (f st a))

theorem foldl_keep_cell {σ α : Type} (cell : σ → Option String)
    (f : σ → α → σ) (hstep : ∀ st a, Keep (cell st) (cell (f st a))) :
    ∀ (L : List α) (st : σ), Keep (cell st) (cell (L.foldl f st)) := by
  intro L
  induction L with
  | nil => intro st; exact Keep.keep_refl _
  | cons a rest ih =>
    intro st
    exact Keep.keep_trans _ _ _ (hstep st a) (ih (f st a))

theorem foldl_activityStep_Rbook (gk cn : String) (opts : List String) (t d s : String)
    (L : List (String × String)) (c : PState) :
    Rbook cn (tCell c.m t d s) (tCell (L.foldl (activityStep gk cn opts) c).m t d s) :=
  foldl_rbook_cell cn (fun x => tCell x.m t d s) (activityStep gk cn opts)
    (fun st' a => activityStep_Rbook gk cn opts st' a t d s) L c

theorem foldl_coreStep_Rbook (gk cn day : String) (cs : List String) (t d s : String)
    (L : List String) (c : CState) :
    Rbook cn (tCell c.m t d s) (tCell (L.foldl (coreStep gk cn day cs) c).m t d s) :=
  foldl_rbook_cell cn (fun x => tCell x.m t d s) (coreStep gk cn day cs)
    (fun st' a => coreStep_Rbook gk cn day cs st' a t d s) L c

theorem activityPhase_Rbook (ctx : Ctx) (gk cn : String) (st : PState) (t d s : String) :
    Rbook cn (tCell st.m t d s) (tCell (activityPhase ctx gk cn st).m t d s) := by
  unfold activityPhase
  by_cases hb : ctx.activity_subjects ≠ [] ∧
      0 < min ctx.activity_count (ctx.days.length * ctx.time_slots.length)
  · rw [if_pos hb]
    exact foldl_activityStep_Rbook gk cn ctx.activity_subjects t d s _ _
  · rw [if_neg hb]
    exact Rbook.rb_refl cn _

theorem coreDay_Rbook (gk cn : String) (cs : List String) (st : PState) (day : String)
    (t d s : String) :
    Rbook cn (tCell st.m t d s) (tCell (coreDay gk cn cs st day).m t d s) := by
  unfold coreDay
  exact foldl_coreStep_Rbook gk cn day cs t d s _ _

theorem corePhase_Rbook (ctx : Ctx) (gk cn : String) (st : PState) (t d s : String) :
    Rbook cn (tCell st.m t d s) (tCell (corePhase ctx gk cn st).m t d s) := by
  unfold corePhase
  exact foldl_rbook_cell cn (fun x => tCell x.m t d s) (coreDay gk cn (NCERT_SUBJECTS gk))
    (fun st' a => coreDay_Rbook gk cn (NCERT_SUBJECTS gk) st' a t d s) ctx.days st

/-- During the processing of one class-section, every teacher-schedule cell is
either untouched or booked (from free) with exactly that class's name. -/
theorem processClass_Rbook (ctx : Ctx) (m : Manager) (r : RandGen) (cn : String)
    (t d s : String) :
    Rbook cn (tCell m t d s) (tCell (processClass ctx m r cn).1 t d s) := by
  unfold processClass
  exact Rbook.rb_trans cn _ _ _
    (activityPhase_Rbook ctx _ cn ⟨m, r, _, _⟩ t d s)
    (corePhase_Rbook ctx _ cn _ t d s)

theorem classStep_Keep (ctx : Ctx) (st : Manager × RandGen × List (String × Grid))
    (cn : String) (t d s : String) :
    Keep (tCell st.1 t d s) (tCell (classStep ctx st cn).1 t d s) :=
  Rbook.keep cn _ _ (processClass_Rbook ctx st.1 st.2.1 cn t d s)

theorem runFrom_Keep (ctx : Ctx) (classes : List String)
    (st : Manager × RandGen × List (String × Grid)) (t d s : String) :
    Keep (tCell st.1 t d s) (tCell (runFrom ctx st classes).1 t d s) := by
  unfold runFrom
  exact foldl_keep_cell (fun x => tCell x.1 t d s) (classStep ctx)
    (fun st' a => classStep_Keep ctx st' a t d s) classes st

theorem runClasses_take_succ (ctx : Ctx) (m : Manager) (r : RandGen)
    (classes : List String) (i : Nat) (hi : i < classes.length) :
    runClasses ctx m r (classes.take (i + 1)) =
      classStep ctx (runClasses ctx m r (classes.take i)) (classes.getD i "") := by
  unfold runClasses runFrom
  rw [List.take_succ, List.getElem?_eq_getElem hi]
  rw [List.foldl_append]
  rw [List.getD_eq_getElem classes "" hi]
  rfl

/-- C1: no double-booking over a single generation run.  If the class
processed at position `i` books teacher `t` at `(d, s)` (the cell was free
before step `i` and holds `v` after it), then `v` is exactly that class's
name and the cell still holds `v` after every later prefix of the run, so no
other class-section's assignment ever books `t` at `(d, s)`; moreover
`assign_teacher` only ever changes a cell that was free, setting it to the
class label. -/
theorem no_double_booking
    (ctx : Ctx) (m0 : Manager) (r0 : RandGen) (classes : List String)
    (t d s v : String) (i j : Nat)
    (hij : i < j) (hj : j ≤ classes.length) (hv : v ≠ "")
    (hfree : (tCell (runClasses ctx m0 r0 (classes.take i)).1 t d s).getD "" = "")
    (hbook : tCell (runClasses ctx m0 r0 (classes.take (i + 1))).1 t d s = some v) :
    v = classes.getD i "" ∧
    tCell (runClasses ctx m0 r0 (classes.take j)).1 t d s = some v ∧
    (∀ (m : Manager) (r : RandGen) (subject gk cn : String),
      tCell (assign_teacher m r subject gk d s cn).2.1 t d s ≠ tCell m t d s →
      (tCell m t d s).getD "" = "" ∧
      tCell (assign_teacher m r subject gk d s cn).2.1 t d s = some cn) := by
  have hi : i < classes.length := lt_of_lt_of_le hij hj
  have hstep := runClasses_take_succ ctx m0 r0 classes i hi
  have hRb : Rbook (classes.getD i "")
      (tCell (runClasses ctx m0 r0 (classes.take i)).1 t d s)
      (tCell (runClasses ctx m0 r0 (classes.take (i + 1))).1 t d s) := by
    rw [hstep]
    exact processClass_Rbook ctx _ _ _ t d s
  have hveq : v = classes.getD i "" := by
    rcases hRb with heq | ⟨_, hb⟩
    · rw [hbook] at heq
      rw [← heq] at hfree
      simp only [Option.getD_some] at hfree
      exact absurd hfree hv
    · rw [hbook] at hb
      injection hb
  have htake : classes.take j =
      classes.take (i + 1) ++ (classes.drop (i + 1)).take (j - (i + 1)) := by
    rw [← List.take_add]
    congr 1
    omega
  have hsplit : runClasses ctx m0 r0 (classes.take j) =
      runFrom ctx (runClasses ctx m0 r0 (classes.take (i + 1)))
        ((classes.drop (i + 1)).take (j - (i + 1))) := by
    rw [htake]
    unfold runClasses runFrom
    rw [List.foldl_append]
  have hkeep : tCell (runClasses ctx m0 r0 (classes.take j)).1 t d s = some v := by
    rw [hsplit]
    exact runFrom_Keep ctx _ _ t d s v hv hbook
  refine ⟨hveq, hkeep, ?_⟩
  intro m r subject gk cn hne
  by_cases h : get_available_teachers m subject gk d s = []
  · rw [assign_teacher_tbd m r subject gk d s cn h] at hne
    exact absurd rfl hne
  · have hc := tCell_assign_teacher m r subject gk d s cn h t d s
    rw [hc] at hne ⊢
    by_cases hcond : t = (assign_teacher m r subject gk d s cn).1 ∧ d = d ∧ s = s
    · rw [if_pos hcond] at hne ⊢
      cases hcell : tCell m t d s with
      | none => rw [hcell] at hne; simp at hne
      | some w =>
        refine ⟨?_, by simp⟩
        obtain ⟨hmem, _⟩ := assign_teacher_chosen m r subject gk d s cn h
        obtain ⟨te, hte, hfree'⟩ := mem_available_means m subject gk d s _ hmem
        have hcell2 : dget2 te.schedule d s = some w := by
          have htc : tCell m (assign_teacher m r subject gk d s cn).1 d s =
              dget2 te.schedule d s := by
            unfold tCell
            rw [hte]
            rfl
          rw [← htc, ← hcond.1, hcell]
        rw [hcell2] at hfree'
        simpa using hfree'
    · rw [if_neg hcond] at hne
      exact absurd rfl hne

/-- A one-teacher, one-slot context and registry for the C1 witness. -/
def ctxW : Ctx := ⟨["Monday"], ["8:00-8:50 AM"], "12:00-12:50 PM", "Holiday", [], 1⟩

/-- One registered teacher `T` (English, band 1-5) with a free one-cell
schedule. -/
def mW : Manager :=
  ⟨[("T", ⟨"T", ["English"], ["1-5"], [("Monday", [("8:00-8:50 AM", "")])]⟩)],
   [(("English", "1-5"), ["T"])], [], []⟩

/-- Witness for C1: class `"Grade 1 A"` books teacher `T` in step 0 of a
two-class run, and the booking survives to the end of the run. -/
theorem no_double_booking_witness :
    ((0 : Nat) < 2 ∧ 2 ≤ (["Grade 1 A", "Grade 1 B"] : List String).length ∧
     ("Grade 1 A" : String) ≠ "" ∧
     (tCell (runClasses ctxW mW zeroGen
        ((["Grade 1 A", "Grade 1 B"] : List String).take 0)).1
        "T" "Monday" "8:00-8:50 AM").getD "" = "" ∧
     tCell (runClasses ctxW mW zeroGen
        ((["Grade 1 A", "Grade 1 B"] : List String).take 1)).1
        "T" "Monday" "8:00-8:50 AM" = some "Grade 1 A") ∧
    tCell (runClasses ctxW mW zeroGen
        ((["Grade 1 A", "Grade 1 B"] : List String).take 2)).1
        "T" "Monday" "8:00-8:50 AM" = some "Grade 1 A" :=
  ⟨⟨by decide, by decide, by decide, by decide, by decide⟩,
   (no_double_booking ctxW mW zeroGen ["Grade 1 A", "Grade 1 B"] "T" "Monday" "8:00-8:50 AM"
      "Grade 1 A" 0 2 (by decide) (by decide) (by decide) (by decide) (by decide)).2.1⟩

/-! ### C6 and C4: lunch placement, fill coverage, Half-Day Saturday blanks -/

theorem dget_aerase (av : Avail) (day t : String) (day0 : String) :
    dget (aerase av day t) day0 =
      if day0 = day then (dget av day0).map (fun p => p.erase t) else dget av day0 :=
  dget_adjust av day (fun p => p.erase t) day0

theorem dget_aset (av : Avail) (day : String) (pool : List String) (day0 : String) :
    dget (aset av day pool) day0 =
      if day0 = day then (dget av day0).map (fun _ => pool) else dget av day0 :=
  dget_adjust av day (fun _ => pool) day0

theorem randSample_subset {α : Type} :
    ∀ (k : Nat) (r : RandGen) (xs : List α), (randSample r xs k).1 ⊆ xs := by
  intro k
  induction k with
  | zero => intro r xs a ha; cases ha
  | succ k ih =>
    intro r xs a ha
    unfold randSample at ha
    by_cases he : xs.isEmpty
    · rw [if_pos he] at ha; cases ha
    · rw [if_neg he] at ha
      simp only at ha
      cases hg : xs.get? (r.next.1 % xs.length) with
      | none => rw [hg] at ha; cases ha
      | some x =>
        rw [hg] at ha
        simp only at ha
        rcases List.mem_cons.mp ha with rfl | hmem
        · exact List.get?_mem hg
        · exact (List.eraseIdx_sublist xs (r.next.1 % xs.length)).subset (ih _ _ hmem)

theorem mem_flat_slots (days : List String) (av : Avail) (d0 t0 : String)
    (h : (d0, t0) ∈
      (days.map (fun day => ((dget av day).getD []).map (fun time => (day, time)))).flatten) :
    d0 ∈ days ∧ t0 ∈ (dget av d0).getD [] := by
  obtain ⟨l, hl, hmem⟩ := List.mem_flatten.mp h
  obtain ⟨day, hday, rfl⟩ := List.mem_map.mp hl
  obtain ⟨time, htime, heq⟩ := List.mem_map.mp hmem
  have hd : day = d0 := congrArg Prod.fst heq
  have ht : time = t0 := congrArg Prod.snd heq
  subst hd; subst ht
  exact ⟨hday, htime⟩

/-- A filled cell: present and holding a non-empty label. -/
def Filled (o : Option String) : Prop := ∃ w, o = some w ∧ w ≠ ""

theorem label_ne_empty (a b : String) : a ++ " (" ++ b ++ ")" ≠ "" := by
  intro h
  have hlen := congrArg String.length h
  rw [String.length_append, String.length_append, String.length_append] at hlen
  have e1 : (" (" : String).length = 2 := rfl
  have e2 : (")" : String).length = 1 := rfl
  have e3 : ("" : String).length = 0 := rfl
  omega

theorem Filled.map_label (o : Option String) (v : String) (hv : v ≠ "")
    (h : o.isSome) : Filled (o.map (fun _ => v)) := by
  obtain ⟨w, hw⟩ := Option.isSome_iff_exists.mp h
  exact ⟨v, by rw [hw]; rfl, hv⟩

theorem Filled.mono_write (o : Option String) (v : String) (hv : v ≠ "")
    (h : Filled o) : Filled (o.map (fun _ => v)) := by
  obtain ⟨w, hw, _⟩ := h
  exact ⟨v, by rw [hw]; rfl, hv⟩

/-! Lunch placement characterization. -/

theorem lunchFold_cell (lt : String) :
    ∀ (days : List String) (st : Grid × Avail) (s0 d0 : String),
      dget2 (days.foldl (lunchStep lt) st).1 s0 d0 =
        if s0 = lt ∧ d0 ∈ days then
          (dget2 st.1 s0 d0).map (fun _ => "Lunch Break 🍽")
        else dget2 st.1 s0 d0 := by
  intro days
  induction days with
  | nil =>
    intro st s0 d0
    simp
  | cons day rest ih =>
    intro st s0 d0
    rw [List.foldl_cons, ih]
    simp only [lunchStep]
    by_cases hs : s0 = lt
    · by_cases hd : d0 = day
      · by_cases hr : d0 ∈ rest
        · rw [if_pos (show s0 = lt ∧ d0 ∈ rest from ⟨hs, hr⟩), dget2_tset,
            if_pos (show s0 = lt ∧ d0 = day from ⟨hs, hd⟩),
            if_pos (show s0 = lt ∧ d0 ∈ day :: rest from ⟨hs, List.mem_cons_of_mem day hr⟩)]
          cases dget2 st.1 s0 d0 <;> rfl
        · rw [if_neg (show ¬(s0 = lt ∧ d0 ∈ rest) from fun hc => hr hc.2), dget2_tset,
            if_pos (show s0 = lt ∧ d0 = day from ⟨hs, hd⟩),
            if_pos (show s0 = lt ∧ d0 ∈ day :: rest from
              ⟨hs, by rw [hd]; exact List.mem_cons_self day rest⟩)]
      · by_cases hr : d0 ∈ rest
        · rw [if_pos (show s0 = lt ∧ d0 ∈ rest from ⟨hs, hr⟩), dget2_tset,
            if_neg (show ¬(s0 = lt ∧ d0 = day) from fun hc => hd hc.2),
            if_pos (show s0 = lt ∧ d0 ∈ day :: rest from ⟨hs, List.mem_cons_of_mem day hr⟩)]
        · rw [if_neg (show ¬(s0 = lt ∧ d0 ∈ rest) from fun hc => hr hc.2), dget2_tset,
            if_neg (show ¬(s0 = lt ∧ d0 = day) from fun hc => hd hc.2),
            if_neg (show ¬(s0 = lt ∧ d0 ∈ day :: rest) from fun hc => by
              rcases List.mem_cons.mp hc.2 with h | h
              · exact hd h
              · exact hr h)]
    · rw [if_neg (show ¬(s0 = lt ∧ d0 ∈ rest) from fun hc => hs hc.1), dget2_tset,
        if_neg (show ¬(s0 = lt ∧ d0 = day) from fun hc => hs hc.1),
        if_neg (show ¬(s0 = lt ∧ d0 ∈ day :: rest) from fun hc => hs hc.1)]

/-- The current pool of still-available slots of one day. -/
def poolAt (av : Avail) (day0 : String) : List String := (dget av day0).getD []

theorem poolAt_aerase_sub (av : Avail) (day t day0 : String) :
    poolAt (aerase av day t) day0 ⊆ poolAt av day0 := by
  unfold poolAt
  rw [dget_aerase]
  by_cases hd : day0 = day
  · rw [if_pos hd]
    cases dget av day0 with
    | none => exact fun a ha => ha
    | some p => exact List.erase_subset _ _
  · rw [if_neg hd]
    exact fun a ha => ha

theorem poolAt_aset_sub (av : Avail) (day day0 : String) (p' : List String)
    (h : p' ⊆ poolAt av day) :
    poolAt (aset av day p') day0 ⊆ poolAt av day0 := by
  unfold poolAt
  rw [dget_aset]
  by_cases hd : day0 = day
  · rw [if_pos hd]
    cases hp : dget av day0 with
    | none => simp
    | some p =>
      subst hd
      unfold poolAt at h
      rw [hp] at h
      exact h
  · rw [if_neg hd]
    exact fun a ha => ha

theorem poolAt_aerase_nodup (av : Avail) (day t day0 : String)
    (h : (poolAt av day0).Nodup) : (poolAt (aerase av day t) day0).Nodup := by
  unfold poolAt at h ⊢
  rw [dget_aerase]
  by_cases hd : day0 = day
  · rw [if_pos hd]
    cases hp : dget av day0 with
    | none => exact List.nodup_nil
    | some p =>
      rw [hp] at h
      exact h.erase t
  · rw [if_neg hd]; exact h

theorem poolAt_aerase_self (av : Avail) (day0 t : String)
    (h : (poolAt av day0).Nodup) : t ∉ poolAt (aerase av day0 t) day0 := by
  unfold poolAt at h ⊢
  rw [dget_aerase, if_pos rfl]
  cases hp : dget av day0 with
  | none => simp
  | some p =>
    rw [hp] at h
    exact h.not_mem_erase

theorem poolAt_aerase_ne (av : Avail) (day t day0 : String) (hd : day0 ≠ day) :
    poolAt (aerase av day t) day0 = poolAt av day0 := by
  unfold poolAt
  rw [dget_aerase, if_neg hd]

theorem poolAt_aset_ne (av : Avail) (day : String) (p : List String) (day0 : String)
    (hd : day0 ≠ day) : poolAt (aset av day p) day0 = poolAt av day0 := by
  unfold poolAt
  rw [dget_aset, if_neg hd]

theorem poolAt_aerase_same (av : Avail) (day t : String) :
    poolAt (aerase av day t) day = (poolAt av day).erase t := by
  unfold poolAt
  rw [dget_aerase, if_pos rfl]
  cases dget av day with
  | none => rfl
  | some p => rfl

/-- A projection unchanged by every step of a fold is unchanged by the fold. -/
theorem foldl_eq_of_step {σ α β : Type} (f : σ → α → σ) (g : σ → β) :
    ∀ (l : List α) (init : σ), (∀ x ∈ l, ∀ c : σ, g (f c x) = g c) →
      g (l.foldl f init) = g init := by
  intro l
  induction l with
  | nil => intro init _; rfl
  | cons x rest ih =>
    intro init h
    rw [List.foldl_cons, ih _ (fun y hy c => h y (List.mem_cons_of_mem x hy) c),
      h x (List.mem_cons_self x rest) init]

theorem lunchFold_pool_sub (lt : String) :
    ∀ (days : List String) (st : Grid × Avail) (d : String),
      poolAt (days.foldl (lunchStep lt) st).2 d ⊆ poolAt st.2 d := by
  intro days
  induction days with
  | nil => intro st d; exact fun a ha => ha
  | cons day rest ih =>
    intro st d
    rw [List.foldl_cons]
    exact fun a ha => poolAt_aerase_sub st.2 day lt d (ih (lunchStep lt st day) d ha)

/-- After the lunch fold, the lunch slot is gone from the pool of every
processed day (the pools start without duplicates). -/
theorem lunchFold_nolunch (lt : String) :
    ∀ (days : List String) (st : Grid × Avail) (d : String),
      d ∈ days → (poolAt st.2 d).Nodup →
      lt ∉ poolAt (days.foldl (lunchStep lt) st).2 d := by
  intro days
  induction days with
  | nil => intro st d hd; cases hd
  | cons day rest ih =>
    intro st d hd hnd
    rw [List.foldl_cons]
    by_cases hdd : d = day
    · subst hdd
      intro hmem
      exact poolAt_aerase_self st.2 d lt hnd (lunchFold_pool_sub lt rest _ d hmem)
    · rcases List.mem_cons.mp hd with h | h
      · exact absurd h hdd
      · exact ih _ d h (poolAt_aerase_nodup st.2 day lt d hnd)

/-- A non-lunch slot survives the lunch fold in every day's pool. -/
theorem lunchFold_pool_mem (lt s : String) (hs : s ≠ lt) :
    ∀ (days : List String) (st : Grid × Avail) (d : String),
      s ∈ poolAt st.2 d → s ∈ poolAt (days.foldl (lunchStep lt) st).2 d := by
  intro days
  induction days with
  | nil => intro st d h; exact h
  | cons day rest ih =>
    intro st d h
    rw [List.foldl_cons]
    refine ih _ d ?_
    show s ∈ poolAt (aerase st.2 day lt) d
    by_cases hdd : d = day
    · subst hdd
      rw [poolAt_aerase_same]
      exact (List.mem_erase_of_ne hs).mpr h
    · rw [poolAt_aerase_ne st.2 day lt d hdd]
      exact h

/-- The empty grid built at the top of the per-class loop
(`generate_timetable` lines 174-178). -/
def initGrid (ctx : Ctx) : Grid :=
  ctx.time_slots.map (fun time => (time, ctx.days.map (fun day => (day, ""))))

/-- A day's initial pool of slots: every slot, except that a Half-Day
Saturday only keeps the first half (`generate_timetable` lines 186-189). -/
def initialPool (ctx : Ctx) (day : String) : List String :=
  if day ≠ "Saturday" then ctx.time_slots
  else if ctx.saturday_option = "Half Day" then
    ctx.time_slots.take (ctx.time_slots.length / 2)
  else ctx.time_slots

/-- The initial `available_slots` dict of the per-class loop. -/
def initAvail (ctx : Ctx) : Avail :=
  ctx.days.map (fun day => (day, initialPool ctx day))

theorem dget2_initGrid (ctx : Ctx) (s d : String) :
    dget2 (initGrid ctx) s d = if s ∈ ctx.time_slots ∧ d ∈ ctx.days then some "" else none :=
  dget2_init ctx.time_slots ctx.days s d

theorem poolAt_initAvail (ctx : Ctx) (d : String) (hd : d ∈ ctx.days) :
    poolAt (initAvail ctx) d = initialPool ctx d := by
  unfold poolAt initAvail
  rw [dget_map_self ctx.days (initialPool ctx) d, if_pos hd]
  rfl

theorem initialPool_nodup (ctx : Ctx) (hnd : ctx.time_slots.Nodup) (d : String) :
    (initialPool ctx d).Nodup := by
  unfold initialPool
  by_cases h1 : d ≠ "Saturday"
  · rw [if_pos h1]; exact hnd
  · rw [if_neg h1]
    by_cases h2 : ctx.saturday_option = "Half Day"
    · rw [if_pos h2]
      exact hnd.sublist (List.take_sublist _ _)
    · rw [if_neg h2]; exact hnd

/-- Lunch placement drops the lunch slot from every day's pool. -/
theorem lunchPhase_removes (ctx : Ctx) (d : String) (hlt : ctx.lunch_time ∈ ctx.time_slots)
    (hnd : ctx.time_slots.Nodup) (hd : d ∈ ctx.days) (g : Grid) :
    ctx.lunch_time ∉ poolAt (lunchPhase ctx g (initAvail ctx)).2 d := by
  unfold lunchPhase
  rw [if_pos hlt]
  refine lunchFold_nolunch ctx.lunch_time ctx.days (g, initAvail ctx) d hd ?_
  show (poolAt (initAvail ctx) d).Nodup
  rw [poolAt_initAvail ctx d hd]
  exact initialPool_nodup ctx hnd d

/-- Lunch placement writes the decorated label into the lunch cell of every
day, whenever the cell is present. -/
theorem lunchPhase_cell (ctx : Ctx) (g : Grid) (av : Avail) (d : String)
    (hlt : ctx.lunch_time ∈ ctx.time_slots) (hd : d ∈ ctx.days) (w : String)
    (hg : dget2 g ctx.lunch_time d = some w) :
    dget2 (lunchPhase ctx g av).1 ctx.lunch_time d = some "Lunch Break 🍽" := by
  unfold lunchPhase
  rw [if_pos hlt]
  rw [lunchFold_cell ctx.lunch_time ctx.days (g, av) ctx.lunch_time d]
  rw [if_pos ⟨rfl, hd⟩]
  show (dget2 g ctx.lunch_time d).map (fun _ => "Lunch Break 🍽") = _
  rw [hg]
  rfl

theorem lunchPhase_pool_sub (ctx : Ctx) (g : Grid) (av : Avail) (d : String) :
    poolAt (lunchPhase ctx g av).2 d ⊆ poolAt av d := by
  unfold lunchPhase
  by_cases hlt : ctx.lunch_time ∈ ctx.time_slots
  · rw [if_pos hlt]
    exact lunchFold_pool_sub ctx.lunch_time ctx.days (g, av) d
  · rw [if_neg hlt]
    exact fun a ha => ha

theorem lunchPhase_isSome (ctx : Ctx) (g : Grid) (av : Avail) (s d : String) :
    (dget2 (lunchPhase ctx g av).1 s d).isSome = (dget2 g s d).isSome := by
  unfold lunchPhase
  by_cases hlt : ctx.lunch_time ∈ ctx.time_slots
  · rw [if_pos hlt]
    rw [lunchFold_cell ctx.lunch_time ctx.days (g, av) s d]
    by_cases hc : s = ctx.lunch_time ∧ d ∈ ctx.days
    · rw [if_pos hc]
      show ((dget2 g s d).map (fun _ => "Lunch Break 🍽")).isSome = (dget2 g s d).isSome
      cases dget2 g s d <;> rfl
    · rw [if_neg hc]
  · rw [if_neg hlt]

theorem activityStep_cell_ne (gk cn : String) (opts : List String) (st : PState)
    (dt : String × String) (s d : String) (h : ¬(s = dt.2 ∧ d = dt.1)) :
    dget2 (activityStep gk cn opts st dt).tt s d = dget2 st.tt s d := by
  unfold activityStep
  exact (dget2_tset st.tt dt.2 dt.1 _ s d).trans (if_neg h)

theorem coreStep_cell_ne (gk cn day : String) (cs : List String) (st : CState)
    (time s d : String) (h : ¬(s = time ∧ d = day)) :
    dget2 (coreStep gk cn day cs st time).tt s d = dget2 st.tt s d := by
  unfold coreStep
  exact (dget2_tset st.tt time day _ s d).trans (if_neg h)

theorem activityStep_tcell_ne (gk cn : String) (opts : List String) (st : PState)
    (dt : String × String) (t d s : String) (h : d ≠ dt.1 ∨ s ≠ dt.2) :
    tCell (activityStep gk cn opts st dt).m t d s = tCell st.m t d s := by
  unfold activityStep
  exact assign_teacher_tCell_ne st.m _ _ gk dt.1 dt.2 cn t d s h

theorem coreStep_tcell_ne (gk cn day : String) (cs : List String) (st : CState)
    (time t d s : String) (h : d ≠ day ∨ s ≠ time) :
    tCell (coreStep gk cn day cs st time).m t d s = tCell st.m t d s := by
  unfold coreStep
  exact assign_teacher_tCell_ne st.m _ _ gk day time cn t d s h

theorem isSome_dget2_tset (g : Grid) (slot day v s d : String) :
    (dget2 (tset g slot day v) s d).isSome = (dget2 g s d).isSome := by
  rw [dget2_tset]
  by_cases h : s = slot ∧ d = day
  · rw [if_pos h]
    cases dget2 g s d <;> rfl
  · rw [if_neg h]

theorem activityStep_isSome (gk cn : String) (opts : List String) (st : PState)
    (dt : String × String) (s d : String) :
    (dget2 (activityStep gk cn opts st dt).tt s d).isSome = (dget2 st.tt s d).isSome := by
  unfold activityStep
  exact isSome_dget2_tset st.tt dt.2 dt.1 _ s d

theorem coreStep_isSome (gk cn day : String) (cs : List String) (st : CState)
    (time s d : String) :
    (dget2 (coreStep gk cn day cs st time).tt s d).isSome = (dget2 st.tt s d).isSome := by
  unfold coreStep
  exact isSome_dget2_tset st.tt time day _ s d

theorem activityStep_av_sub (gk cn : String) (opts : List String) (st : PState)
    (dt : String × String) (d : String) :
    poolAt (activityStep gk cn opts st dt).av d ⊆ poolAt st.av d := by
  unfold activityStep
  exact poolAt_aerase_sub st.av dt.1 dt.2 d

theorem foldl_activityStep_av_sub (gk cn : String) (opts : List String) (d : String) :
    ∀ (L : List (String × String)) (c : PState),
      poolAt (L.foldl (activityStep gk cn opts) c).av d ⊆ poolAt c.av d := by
  intro L
  induction L with
  | nil => intro c; exact fun a ha => ha
  | cons x rest ih =>
    intro c
    rw [List.foldl_cons]
    exact fun a ha => activityStep_av_sub gk cn opts c x d (ih _ ha)

theorem activityPhase_av_sub (ctx : Ctx) (gk cn : String) (st : PState) (d : String) :
    poolAt (activityPhase ctx gk cn st).av d ⊆ poolAt st.av d := by
  unfold activityPhase
  by_cases hb : ctx.activity_subjects ≠ [] ∧
      0 < min ctx.activity_count (ctx.days.length * ctx.time_slots.length)
  · rw [if_pos hb]
    exact foldl_activityStep_av_sub gk cn ctx.activity_subjects d _ _
  · rw [if_neg hb]
    exact fun a ha => ha

theorem coreStep_pool_sub (gk cn day : String) (cs : List String) (st : CState)
    (time : String) : (coreStep gk cn day cs st time).pool ⊆ st.pool := by
  unfold coreStep
  exact List.erase_subset _ _

theorem coreFold_pool_sub (gk cn day : String) (cs : List String) :
    ∀ (L : List String) (c : CState),
      (L.foldl (coreStep gk cn day cs) c).pool ⊆ c.pool := by
  intro L
  induction L with
  | nil => intro c; exact fun a ha => ha
  | cons x rest ih =>
    intro c
    rw [List.foldl_cons]
    exact fun a ha => coreStep_pool_sub gk cn day cs c x (ih _ ha)

theorem coreDay_av_sub (gk cn : String) (cs : List String) (st : PState) (day d : String) :
    poolAt (coreDay gk cn cs st day).av d ⊆ poolAt st.av d := by
  unfold coreDay
  exact poolAt_aset_sub st.av day d _ (coreFold_pool_sub gk cn day cs _ _)

theorem coreDays_av_sub (gk cn : String) (cs : List String) (d : String) :
    ∀ (ds : List String) (st : PState),
      poolAt (ds.foldl (coreDay gk cn cs) st).av d ⊆ poolAt st.av d := by
  intro ds
  induction ds with
  | nil => intro st; exact fun a ha => ha
  | cons day rest ih =>
    intro st
    rw [List.foldl_cons]
    exact fun a ha => coreDay_av_sub gk cn cs st day d (ih _ ha)

/-- A fold of activity fills that never hits the target cell leaves the
target grid cell and every teacher's target schedule cell unchanged. -/
theorem activityFold_target_free (gk cn : String) (opts : List String) (s d : String)
    (L : List (String × String)) (hL : ∀ dt ∈ L, ¬(s = dt.2 ∧ d = dt.1)) (c : PState) :
    dget2 (L.foldl (activityStep gk cn opts) c).tt s d = dget2 c.tt s d ∧
    (∀ t, tCell (L.foldl (activityStep gk cn opts) c).m t d s = tCell c.m t d s) := by
  constructor
  · exact foldl_eq_of_step (activityStep gk cn opts) (fun x => dget2 x.tt s d) L c
      (fun dt hdt c' => activityStep_cell_ne gk cn opts c' dt s d (hL dt hdt))
  · intro t
    exact foldl_eq_of_step (activityStep gk cn opts) (fun x => tCell x.m t d s) L c
      (fun dt hdt c' => activityStep_tcell_ne gk cn opts c' dt t d s
        (if hs : s = dt.2 then Or.inl (fun hd' => hL dt hdt ⟨hs, hd'⟩) else Or.inr hs))

/-- The activity phase never touches a cell whose slot is outside the current
pool of its day: all sampled pairs come from the pools. -/
theorem activityPhase_target_free (ctx : Ctx) (gk cn : String) (st : PState) (s d : String)
    (h : s ∉ poolAt st.av d) :
    dget2 (activityPhase ctx gk cn st).tt s d = dget2 st.tt s d ∧
    (∀ t, tCell (activityPhase ctx gk cn st).m t d s = tCell st.m t d s) := by
  unfold activityPhase
  by_cases hb : ctx.activity_subjects ≠ [] ∧
      0 < min ctx.activity_count (ctx.days.length * ctx.time_slots.length)
  · rw [if_pos hb]
    refine activityFold_target_free gk cn ctx.activity_subjects s d _ ?_ _
    intro dt hdt hc
    have hmem := mem_flat_slots ctx.days st.av dt.1 dt.2 (randSample_subset _ st.r _ hdt)
    exact h (show s ∈ poolAt st.av d from by rw [hc.1, hc.2]; exact hmem.2)
  · rw [if_neg hb]
    exact ⟨rfl, fun t => rfl⟩

/-- One core-fill day leaves the target cell alone when the target slot is
not in that day's pool snapshot. -/
theorem coreDay_target_free (gk cn : String) (cs : List String) (st : PState)
    (day s d : String) (hmiss : d = day → s ∉ poolAt st.av day) :
    dget2 (coreDay gk cn cs st day).tt s d = dget2 st.tt s d ∧
    (∀ t, tCell (coreDay gk cn cs st day).m t d s = tCell st.m t d s) := by
  constructor
  · show dget2 ((((dget st.av day).getD []).foldl (coreStep gk cn day cs)
      ⟨st.m, st.r, st.tt, (dget st.av day).getD []⟩).tt) s d = dget2 st.tt s d
    exact foldl_eq_of_step (coreStep gk cn day cs) (fun x => dget2 x.tt s d) _ _
      (fun time htime c => coreStep_cell_ne gk cn day cs c time s d
        (fun hc => hmiss hc.2 (show s ∈ poolAt st.av day from by rw [hc.1]; exact htime)))
  · intro t
    show tCell ((((dget st.av day).getD []).foldl (coreStep gk cn day cs)
      ⟨st.m, st.r, st.tt, (dget st.av day).getD []⟩).m) t d s = tCell st.m t d s
    exact foldl_eq_of_step (coreStep gk cn day cs) (fun x => tCell x.m t d s) _ _
      (fun time htime c => coreStep_tcell_ne gk cn day cs c time t d s
        (if hs : s = time then Or.inl (fun hd' => hmiss hd'
            (show s ∈ poolAt st.av day from by rw [hs]; exact htime)) else Or.inr hs))

/-- The whole core phase leaves the target cell alone when the target slot is
out of its day's pool at entry. -/
theorem coreDays_target_free (gk cn : String) (cs : List String) (s d : String) :
    ∀ (ds : List String) (st : PState), s ∉ poolAt st.av d →
      dget2 (ds.foldl (coreDay gk cn cs) st).tt s d = dget2 st.tt s d ∧
      (∀ t, tCell (ds.foldl (coreDay gk cn cs) st).m t d s = tCell st.m t d s) := by
  intro ds
  induction ds with
  | nil => intro st h; exact ⟨rfl, fun t => rfl⟩
  | cons day rest ih =>
    intro st h
    rw [List.foldl_cons]
    have hmiss : d = day → s ∉ poolAt st.av day := fun hd => hd ▸ h
    have hstep := coreDay_target_free gk cn cs st day s d hmiss
    have hrec := ih (coreDay gk cn cs st day)
      (fun hmem => h (coreDay_av_sub gk cn cs st day d hmem))
    exact ⟨hrec.1.trans hstep.1, fun t => (hrec.2 t).trans (hstep.2 t)⟩

/-- Through the activity and core phases the lunch cell of the grid and every
teacher's schedule cell at the lunch slot stay untouched. -/
theorem phases_lunch (ctx : Ctx) (gk cn : String) (m : Manager) (r : RandGen)
    (hlt : ctx.lunch_time ∈ ctx.time_slots) (hnd : ctx.time_slots.Nodup)
    (d : String) (hd : d ∈ ctx.days) :
    dget2 (corePhase ctx gk cn (activityPhase ctx gk cn
        ⟨m, r, (lunchPhase ctx (initGrid ctx) (initAvail ctx)).1,
          (lunchPhase ctx (initGrid ctx) (initAvail ctx)).2⟩)).tt ctx.lunch_time d
      = some "Lunch Break 🍽" ∧
    ∀ t, tCell (corePhase ctx gk cn (activityPhase ctx gk cn
        ⟨m, r, (lunchPhase ctx (initGrid ctx) (initAvail ctx)).1,
          (lunchPhase ctx (initGrid ctx) (initAvail ctx)).2⟩)).m t d ctx.lunch_time
      = tCell m t d ctx.lunch_time := by
  have hla2 : ctx.lunch_time ∉ poolAt (lunchPhase ctx (initGrid ctx) (initAvail ctx)).2 d :=
    lunchPhase_removes ctx d hlt hnd hd (initGrid ctx)
  have hg0 : dget2 (initGrid ctx) ctx.lunch_time d = some "" := by
    rw [dget2_initGrid, if_pos ⟨hlt, hd⟩]
  have hcell0 : dget2 (lunchPhase ctx (initGrid ctx) (initAvail ctx)).1 ctx.lunch_time d
      = some "Lunch Break 🍽" :=
    lunchPhase_cell ctx (initGrid ctx) (initAvail ctx) d hlt hd "" hg0
  have hA := activityPhase_target_free ctx gk cn
    ⟨m, r, (lunchPhase ctx (initGrid ctx) (initAvail ctx)).1,
      (lunchPhase ctx (initGrid ctx) (initAvail ctx)).2⟩ ctx.lunch_time d hla2
  have hAav : ctx.lunch_time ∉ poolAt (activityPhase ctx gk cn
      ⟨m, r, (lunchPhase ctx (initGrid ctx) (initAvail ctx)).1,
        (lunchPhase ctx (initGrid ctx) (initAvail ctx)).2⟩).av d :=
    fun hm => hla2 (activityPhase_av_sub ctx gk cn _ d hm)
  have hC := coreDays_target_free gk cn (NCERT_SUBJECTS gk) ctx.lunch_time d ctx.days
    (activityPhase ctx gk cn
      ⟨m, r, (lunchPhase ctx (initGrid ctx) (initAvail ctx)).1,
        (lunchPhase ctx (initGrid ctx) (initAvail ctx)).2⟩) hAav
  constructor
  · exact hC.1.trans (hA.1.trans hcell0)
  · intro t
    exact (hC.2 t).trans (hA.2 t)

/-- C6 (amended): when the configured lunch slot is among the run's slots,
every generated class grid holds exactly the decorated string
"Lunch Break 🍽" (not the plain "Lunch Break") at the lunch cell of every
day of the run, the lunch slot is removed from every day's pool by the
lunch phase before the activity and core fills run, and no teacher's
schedule cell at (day, lunch slot) is changed while the class is processed. -/
theorem lunch_break_spec (ctx : Ctx) (m : Manager) (r : RandGen) (cn : String)
    (hlt : ctx.lunch_time ∈ ctx.time_slots) (hnd : ctx.time_slots.Nodup)
    (d : String) (hd : d ∈ ctx.days) :
    dget2 (processClass ctx m r cn).2.2 ctx.lunch_time d = some "Lunch Break 🍽" ∧
    ctx.lunch_time ∉ poolAt (lunchPhase ctx (initGrid ctx) (initAvail ctx)).2 d ∧
    (∀ t, tCell (processClass ctx m r cn).1 t d ctx.lunch_time
      = tCell m t d ctx.lunch_time) := by
  refine ⟨?_, lunchPhase_removes ctx d hlt hnd hd (initGrid ctx), ?_⟩
  · exact (phases_lunch ctx (get_grade_key ((pySplitWs cn).getD 1 "")) cn m r
      hlt hnd d hd).1
  · exact (phases_lunch ctx (get_grade_key ((pySplitWs cn).getD 1 "")) cn m r
      hlt hnd d hd).2

/-- A small run whose lunch slot is inside the slot list. -/
def ctxW6 : Ctx :=
  ⟨["Monday"], ["8:00-8:50 AM", "12:00-12:50 PM"], "12:00-12:50 PM", "Full Day", [], 0⟩

/-- Witness for C6 at a concrete one-day run. -/
theorem lunch_break_spec_witness :
    dget2 (processClass ctxW6 initManager zeroGen "Grade 1 A").2.2
        ctxW6.lunch_time "Monday" = some "Lunch Break 🍽" ∧
    tCell (processClass ctxW6 initManager zeroGen "Grade 1 A").1 "T" "Monday"
        ctxW6.lunch_time = tCell initManager "T" "Monday" ctxW6.lunch_time := by
  have h := lunch_break_spec ctxW6 initManager zeroGen "Grade 1 A" (by decide) (by decide)
    "Monday" (by decide)
  exact ⟨h.1, h.2.2 "T"⟩

/-- The parameters of a run whose lunch slot lies inside the slot list. -/
def pLunch : Params :=
  ⟨["A", "B", "C", "D"], [], 0, "11:00-11:50 AM", "1:00-1:50 PM", 2,
   "12:00-12:50 PM", "Full Day"⟩

/-- The per-class context `generate_timetable` builds for `pLunch`. -/
def ctxL : Ctx :=
  ⟨["Monday", "Tuesday", "Wednesday", "Thursday", "Friday", "Saturday"],
   ["11:00-11:50 AM", "12:00-12:50 PM"], "12:00-12:50 PM", "Full Day", [], 0⟩

set_option maxRecDepth 40000 in
/-- C6 counterexample: in a run whose lunch slot is among the generated
slots, the lunch cell of a generated class grid reads the decorated string
"Lunch Break 🍽" — not the exact string "Lunch Break" the claim states. -/
theorem lunch_label_mismatch_cex :
    parse_time pLunch.start_time = some 11 ∧ parse_time pLunch.end_time = some 13 ∧
    ctxL = ⟨runDays pLunch, create_time_slots 11 13 2, pLunch.lunch_time,
      pLunch.saturday_option, pLunch.activity_subjects, pLunch.activity_count⟩ ∧
    ctxL.lunch_time ∈ ctxL.time_slots ∧
    dget2 (processClass ctxL initManager zeroGen "Grade 1 A").2.2
        "12:00-12:50 PM" "Monday" = some "Lunch Break 🍽" ∧
    some "Lunch Break 🍽" ≠ some "Lunch Break" := by
  refine ⟨by decide, by decide, by decide, by decide, ?_, by decide⟩
  decide

/-- One activity fill writes a "{activity} ({teacher})" label at its sampled
cell and leaves every other cell alone. -/
theorem activityStep_cell (gk cn : String) (opts : List String) (st : PState)
    (dt : String × String) (s d : String) :
    ∃ a b : String, dget2 (activityStep gk cn opts st dt).tt s d =
      if s = dt.2 ∧ d = dt.1 then (dget2 st.tt s d).map (fun _ => a ++ " (" ++ b ++ ")")
      else dget2 st.tt s d := by
  refine ⟨(randChoice st.r opts).1.getD "", (assign_teacher st.m (randChoice st.r opts).2
    ((randChoice st.r opts).1.getD "") gk dt.1 dt.2 cn).1, ?_⟩
  unfold activityStep
  exact dget2_tset st.tt dt.2 dt.1 _ s d

/-- One core fill writes a "{subject} ({teacher})" label at its cell and
leaves every other cell alone. -/
theorem coreStep_cell (gk cn day : String) (cs : List String) (c : CState)
    (time s d : String) :
    ∃ a b : String, dget2 (coreStep gk cn day cs c time).tt s d =
      if s = time ∧ d = day then (dget2 c.tt s d).map (fun _ => a ++ " (" ++ b ++ ")")
      else dget2 c.tt s d := by
  refine ⟨(randChoice c.r cs).1.getD "", (assign_teacher c.m (randChoice c.r cs).2
    ((randChoice c.r cs).1.getD "") gk day time cn).1, ?_⟩
  unfold coreStep
  exact dget2_tset c.tt time day _ s d

/-- "Pending or filled": the cell is present, and either its slot is still in
its day's pool (awaiting the core fill) or it already holds a non-empty
label. -/
def JInv (st : PState) (s d : String) : Prop :=
  (dget2 st.tt s d).isSome ∧ (s ∈ poolAt st.av d ∨ Filled (dget2 st.tt s d))

theorem activityStep_J (gk cn : String) (opts : List String) (st : PState)
    (dt : String × String) (s d : String) (h : JInv st s d) :
    JInv (activityStep gk cn opts st dt) s d := by
  obtain ⟨a, b, hcell⟩ := activityStep_cell gk cn opts st dt s d
  obtain ⟨hsome, hrest⟩ := h
  have hsome' : (dget2 (activityStep gk cn opts st dt).tt s d).isSome := by
    rw [activityStep_isSome]
    exact hsome
  refine ⟨hsome', ?_⟩
  by_cases htar : s = dt.2 ∧ d = dt.1
  · right
    rw [hcell, if_pos htar]
    exact Filled.map_label _ _ (label_ne_empty a b) hsome
  · rcases hrest with hpool | hfill
    · left
      show s ∈ poolAt (aerase st.av dt.1 dt.2) d
      by_cases hdd : d = dt.1
      · subst hdd
        rw [poolAt_aerase_same]
        have hs2 : s ≠ dt.2 := fun hs => htar ⟨hs, rfl⟩
        exact (List.mem_erase_of_ne hs2).mpr hpool
      · rw [poolAt_aerase_ne st.av dt.1 dt.2 d hdd]
        exact hpool
    · right
      rw [hcell, if_neg htar]
      exact hfill

theorem activityFold_J (gk cn : String) (opts : List String) (s d : String) :
    ∀ (L : List (String × String)) (c : PState), JInv c s d →
      JInv (L.foldl (activityStep gk cn opts) c) s d := by
  intro L
  induction L with
  | nil => intro c h; exact h
  | cons x rest ih =>
    intro c h
    rw [List.foldl_cons]
    exact ih _ (activityStep_J gk cn opts c x s d h)

theorem activityPhase_J (ctx : Ctx) (gk cn : String) (st : PState) (s d : String)
    (h : JInv st s d) : JInv (activityPhase ctx gk cn st) s d := by
  unfold activityPhase
  by_cases hb : ctx.activity_subjects ≠ [] ∧
      0 < min ctx.activity_count (ctx.days.length * ctx.time_slots.length)
  · rw [if_pos hb]
    exact activityFold_J gk cn ctx.activity_subjects s d _ _ h
  · rw [if_neg hb]
    exact h

theorem coreFold_filled (gk cn day : String) (cs : List String) (s d : String) :
    ∀ (L : List String) (c : CState), Filled (dget2 c.tt s d) →
      Filled (dget2 (L.foldl (coreStep gk cn day cs) c).tt s d) := by
  intro L
  induction L with
  | nil => intro c h; exact h
  | cons time rest ih =>
    intro c h
    rw [List.foldl_cons]
    refine ih _ ?_
    obtain ⟨a, b, hcell⟩ := coreStep_cell gk cn day cs c time s d
    rw [hcell]
    by_cases htar : s = time ∧ d = day
    · rw [if_pos htar]
      exact Filled.mono_write _ _ (label_ne_empty a b) h
    · rw [if_neg htar]
      exact h

theorem coreFold_isSome (gk cn day : String) (cs : List String) (s d : String) :
    ∀ (L : List String) (c : CState),
      (dget2 (L.foldl (coreStep gk cn day cs) c).tt s d).isSome
        = (dget2 c.tt s d).isSome := by
  intro L
  induction L with
  | nil => intro c; rfl
  | cons time rest ih =>
    intro c
    rw [List.foldl_cons, ih, coreStep_isSome]

/-- The core fill of one day fills every present cell whose slot is in the
iterated snapshot. -/
theorem coreFold_fills (gk cn day : String) (cs : List String) (s : String) :
    ∀ (L : List String) (c : CState), s ∈ L → (dget2 c.tt s day).isSome →
      Filled (dget2 (L.foldl (coreStep gk cn day cs) c).tt s day) := by
  intro L
  induction L with
  | nil => intro c hs; cases hs
  | cons time rest ih =>
    intro c hs hsome
    rw [List.foldl_cons]
    by_cases hst : s = time
    · refine coreFold_filled gk cn day cs s day rest _ ?_
      obtain ⟨a, b, hcell⟩ := coreStep_cell gk cn day cs c time s day
      rw [hcell, if_pos ⟨hst, rfl⟩]
      exact Filled.map_label _ _ (label_ne_empty a b) hsome
    · refine ih _ ?_ ?_
      · rcases List.mem_cons.mp hs with h | h
        · exact absurd h hst
        · exact h
      · rw [coreStep_isSome]
        exact hsome

theorem coreDay_isSome (gk cn : String) (cs : List String) (st : PState) (day s d : String) :
    (dget2 (coreDay gk cn cs st day).tt s d).isSome = (dget2 st.tt s d).isSome :=
  coreFold_isSome gk cn day cs s d ((dget st.av day).getD [])
    ⟨st.m, st.r, st.tt, (dget st.av day).getD []⟩

theorem coreDays_isSome (gk cn : String) (cs : List String) (s d : String) :
    ∀ (ds : List String) (st : PState),
      (dget2 (ds.foldl (coreDay gk cn cs) st).tt s d).isSome
        = (dget2 st.tt s d).isSome := by
  intro ds
  induction ds with
  | nil => intro st; rfl
  | cons day rest ih =>
    intro st
    rw [List.foldl_cons, ih]
    exact coreDay_isSome gk cn cs st day s d

theorem activityFold_isSome (gk cn : String) (opts : List String) (s d : String) :
    ∀ (L : List (String × String)) (c : PState),
      (dget2 (L.foldl (activityStep gk cn opts) c).tt s d).isSome
        = (dget2 c.tt s d).isSome := by
  intro L
  induction L with
  | nil => intro c; rfl
  | cons x rest ih =>
    intro c
    rw [List.foldl_cons, ih, activityStep_isSome]

theorem activityPhase_isSome (ctx : Ctx) (gk cn : String) (st : PState) (s d : String) :
    (dget2 (activityPhase ctx gk cn st).tt s d).isSome = (dget2 st.tt s d).isSome := by
  unfold activityPhase
  by_cases hb : ctx.activity_subjects ≠ [] ∧
      0 < min ctx.activity_count (ctx.days.length * ctx.time_slots.length)
  · rw [if_pos hb]
    exact activityFold_isSome gk cn ctx.activity_subjects s d _ _
  · rw [if_neg hb]

theorem coreDay_J (gk cn : String) (cs : List String) (st : PState) (day s d : String)
    (h : JInv st s d) : JInv (coreDay gk cn cs st day) s d := by
  obtain ⟨hsome, hrest⟩ := h
  have hsome' : (dget2 (coreDay gk cn cs st day).tt s d).isSome := by
    rw [coreDay_isSome]
    exact hsome
  refine ⟨hsome', ?_⟩
  by_cases hdd : d = day
  · right
    subst hdd
    show Filled (dget2 ((((dget st.av d).getD []).foldl (coreStep gk cn d cs)
      ⟨st.m, st.r, st.tt, (dget st.av d).getD []⟩).tt) s d)
    rcases hrest with hpool | hfill
    · exact coreFold_fills gk cn d cs s _ _ hpool hsome
    · exact coreFold_filled gk cn d cs s d _ _ hfill
  · have hcell : dget2 (coreDay gk cn cs st day).tt s d = dget2 st.tt s d := by
      show dget2 ((((dget st.av day).getD []).foldl (coreStep gk cn day cs)
        ⟨st.m, st.r, st.tt, (dget st.av day).getD []⟩).tt) s d = dget2 st.tt s d
      exact foldl_eq_of_step (coreStep gk cn day cs) (fun x => dget2 x.tt s d) _ _
        (fun time _ c => coreStep_cell_ne gk cn day cs c time s d (fun hc => hdd hc.2))
    rcases hrest with hpool | hfill
    · left
      show s ∈ poolAt (aset st.av day _) d
      rw [poolAt_aset_ne st.av day _ d hdd]
      exact hpool
    · right
      rw [hcell]
      exact hfill

theorem coreDays_J (gk cn : String) (cs : List String) (s d : String) :
    ∀ (ds : List String) (st : PState), JInv st s d →
      JInv (ds.foldl (coreDay gk cn cs) st) s d := by
  intro ds
  induction ds with
  | nil => intro st h; exact h
  | cons day rest ih =>
    intro st h
    rw [List.foldl_cons]
    exact ih _ (coreDay_J gk cn cs st day s d h)

theorem coreDay_filled (gk cn : String) (cs : List String) (st : PState) (day s d : String)
    (h : Filled (dget2 st.tt s d)) : Filled (dget2 (coreDay gk cn cs st day).tt s d) := by
  show Filled (dget2 ((((dget st.av day).getD []).foldl (coreStep gk cn day cs)
    ⟨st.m, st.r, st.tt, (dget st.av day).getD []⟩).tt) s d)
  exact coreFold_filled gk cn day cs s d _ _ h

theorem coreDays_filled (gk cn : String) (cs : List String) (s d : String) :
    ∀ (ds : List String) (st : PState), Filled (dget2 st.tt s d) →
      Filled (dget2 (ds.foldl (coreDay gk cn cs) st).tt s d) := by
  intro ds
  induction ds with
  | nil => intro st h; exact h
  | cons day rest ih =>
    intro st h
    rw [List.foldl_cons]
    exact ih _ (coreDay_filled gk cn cs st day s d h)

/-- Once a cell is pending-or-filled and its day gets its core fill, the cell
ends the core phase with a non-empty label. -/
theorem coreDays_fills (gk cn : String) (cs : List String) (s d : String) :
    ∀ (ds : List String) (st : PState), d ∈ ds → JInv st s d →
      Filled (dget2 (ds.foldl (coreDay gk cn cs) st).tt s d) := by
  intro ds
  induction ds with
  | nil => intro st hd; cases hd
  | cons day rest ih =>
    intro st hd h
    rw [List.foldl_cons]
    by_cases hdd : d = day
    · refine coreDays_filled gk cn cs s d rest _ ?_
      subst hdd
      rcases h.2 with hpool | hfill
      · show Filled (dget2 ((((dget st.av d).getD []).foldl (coreStep gk cn d cs)
          ⟨st.m, st.r, st.tt, (dget st.av d).getD []⟩).tt) s d)
        exact coreFold_fills gk cn d cs s _ _ hpool h.1
      · exact coreDay_filled gk cn cs st d s d hfill
    · rcases List.mem_cons.mp hd with h' | h'
      · exact absurd h' hdd
      · exact ih _ h' (coreDay_J gk cn cs st day s d h)

/-- After the lunch phase, every cell whose slot is in its day's initial pool
or is a listed lunch slot is pending-or-filled. -/
theorem lunchPhase_J (ctx : Ctx) (m : Manager) (r : RandGen) (s d : String)
    (hs : s ∈ ctx.time_slots) (hd : d ∈ ctx.days)
    (hin : s ∈ initialPool ctx d ∨ (s = ctx.lunch_time ∧ ctx.lunch_time ∈ ctx.time_slots)) :
    JInv ⟨m, r, (lunchPhase ctx (initGrid ctx) (initAvail ctx)).1,
      (lunchPhase ctx (initGrid ctx) (initAvail ctx)).2⟩ s d := by
  have hg0 : dget2 (initGrid ctx) s d = some "" := by
    rw [dget2_initGrid, if_pos ⟨hs, hd⟩]
  have hsome : (dget2 (lunchPhase ctx (initGrid ctx) (initAvail ctx)).1 s d).isSome := by
    rw [lunchPhase_isSome, hg0]
    rfl
  refine ⟨hsome, ?_⟩
  by_cases hslt : s = ctx.lunch_time ∧ ctx.lunch_time ∈ ctx.time_slots
  · right
    have hc := lunchPhase_cell ctx (initGrid ctx) (initAvail ctx) d hslt.2 hd ""
      (hslt.1 ▸ hg0)
    show Filled (dget2 (lunchPhase ctx (initGrid ctx) (initAvail ctx)).1 s d)
    rw [hslt.1, hc]
    exact ⟨"Lunch Break 🍽", rfl, by decide⟩
  · left
    have hpool : s ∈ initialPool ctx d := by
      rcases hin with h | h
      · exact h
      · exact absurd h hslt
    show s ∈ poolAt (lunchPhase ctx (initGrid ctx) (initAvail ctx)).2 d
    unfold lunchPhase
    by_cases hlt : ctx.lunch_time ∈ ctx.time_slots
    · rw [if_pos hlt]
      have hne : s ≠ ctx.lunch_time := fun he => hslt ⟨he, hlt⟩
      refine lunchFold_pool_mem ctx.lunch_time s hne ctx.days
        (initGrid ctx, initAvail ctx) d ?_
      show s ∈ poolAt (initAvail ctx) d
      rw [poolAt_initAvail ctx d hd]
      exact hpool
    · rw [if_neg hlt]
      show s ∈ poolAt (initAvail ctx) d
      rw [poolAt_initAvail ctx d hd]
      exact hpool

/-- A produced class grid has exactly the run's (slot, day) cells present. -/
theorem processClass_cell_present (ctx : Ctx) (m : Manager) (r : RandGen) (cn s d : String) :
    (dget2 (processClass ctx m r cn).2.2 s d).isSome
      ↔ (s ∈ ctx.time_slots ∧ d ∈ ctx.days) := by
  have h1 : (dget2 (processClass ctx m r cn).2.2 s d).isSome
      = (dget2 (lunchPhase ctx (initGrid ctx) (initAvail ctx)).1 s d).isSome := by
    have h2 := coreDays_isSome (get_grade_key ((pySplitWs cn).getD 1 "")) cn
      (NCERT_SUBJECTS (get_grade_key ((pySplitWs cn).getD 1 ""))) s d ctx.days
      (activityPhase ctx (get_grade_key ((pySplitWs cn).getD 1 "")) cn
        ⟨m, r, (lunchPhase ctx (initGrid ctx) (initAvail ctx)).1,
          (lunchPhase ctx (initGrid ctx) (initAvail ctx)).2⟩)
    have h3 := activityPhase_isSome ctx (get_grade_key ((pySplitWs cn).getD 1 "")) cn
      ⟨m, r, (lunchPhase ctx (initGrid ctx) (initAvail ctx)).1,
        (lunchPhase ctx (initGrid ctx) (initAvail ctx)).2⟩ s d
    exact h2.trans h3
  rw [h1, lunchPhase_isSome, dget2_initGrid]
  by_cases hc : s ∈ ctx.time_slots ∧ d ∈ ctx.days
  · rw [if_pos hc]
    simp [hc]
  · rw [if_neg hc]
    simp [hc]

/-- Every cell of a produced class grid whose slot is pooled (or is a listed
lunch slot) ends with a non-empty label. -/
theorem processClass_cell_filled (ctx : Ctx) (m : Manager) (r : RandGen) (cn s d : String)
    (hs : s ∈ ctx.time_slots) (hd : d ∈ ctx.days)
    (hin : s ∈ initialPool ctx d ∨ (s = ctx.lunch_time ∧ ctx.lunch_time ∈ ctx.time_slots)) :
    Filled (dget2 (processClass ctx m r cn).2.2 s d) := by
  have hJ := lunchPhase_J ctx m r s d hs hd hin
  have hJ2 := activityPhase_J ctx (get_grade_key ((pySplitWs cn).getD 1 "")) cn _ s d hJ
  exact coreDays_fills (get_grade_key ((pySplitWs cn).getD 1 "")) cn
    (NCERT_SUBJECTS (get_grade_key ((pySplitWs cn).getD 1 ""))) s d ctx.days _ hd hJ2

/-- Every cell of a produced class grid whose slot is outside its day's pool
and is not the lunch slot stays present and blank. -/
theorem processClass_cell_blank (ctx : Ctx) (m : Manager) (r : RandGen) (cn s d : String)
    (hs : s ∈ ctx.time_slots) (hd : d ∈ ctx.days)
    (hout : s ∉ initialPool ctx d) (hlt : s ≠ ctx.lunch_time) :
    dget2 (processClass ctx m r cn).2.2 s d = some "" := by
  have hout2 : s ∉ poolAt (lunchPhase ctx (initGrid ctx) (initAvail ctx)).2 d := fun hmem =>
    hout (poolAt_initAvail ctx d hd ▸
      lunchPhase_pool_sub ctx (initGrid ctx) (initAvail ctx) d hmem)
  have hA := activityPhase_target_free ctx (get_grade_key ((pySplitWs cn).getD 1 "")) cn
    ⟨m, r, (lunchPhase ctx (initGrid ctx) (initAvail ctx)).1,
      (lunchPhase ctx (initGrid ctx) (initAvail ctx)).2⟩ s d hout2
  have hAav : s ∉ poolAt (activityPhase ctx (get_grade_key ((pySplitWs cn).getD 1 "")) cn
      ⟨m, r, (lunchPhase ctx (initGrid ctx) (initAvail ctx)).1,
        (lunchPhase ctx (initGrid ctx) (initAvail ctx)).2⟩).av d :=
    fun hm => hout2 (activityPhase_av_sub ctx _ cn _ d hm)
  have hC := coreDays_target_free (get_grade_key ((pySplitWs cn).getD 1 "")) cn
    (NCERT_SUBJECTS (get_grade_key ((pySplitWs cn).getD 1 ""))) s d ctx.days
    (activityPhase ctx (get_grade_key ((pySplitWs cn).getD 1 "")) cn
      ⟨m, r, (lunchPhase ctx (initGrid ctx) (initAvail ctx)).1,
        (lunchPhase ctx (initGrid ctx) (initAvail ctx)).2⟩) hAav
  have hla : dget2 (lunchPhase ctx (initGrid ctx) (initAvail ctx)).1 s d = some "" := by
    unfold lunchPhase
    by_cases hltm : ctx.lunch_time ∈ ctx.time_slots
    · rw [if_pos hltm,
        lunchFold_cell ctx.lunch_time ctx.days (initGrid ctx, initAvail ctx) s d,
        if_neg (fun hc => hlt hc.1)]
      show dget2 (initGrid ctx) s d = some ""
      rw [dget2_initGrid, if_pos ⟨hs, hd⟩]
    · rw [if_neg hltm]
      show dget2 (initGrid ctx) s d = some ""
      rw [dget2_initGrid, if_pos ⟨hs, hd⟩]
  exact hC.1.trans (hA.1.trans hla)

theorem mem_dset {K V : Type} [DecidableEq K] (m : List (K × V)) (k : K) (v : V)
    (p : K × V) (hp : p ∈ dset m k v) : p ∈ m ∨ p = (k, v) := by
  unfold dset at hp
  by_cases h : (dget m k).isSome
  · rw [if_pos h] at hp
    obtain ⟨q, hq, hpe⟩ := List.mem_map.mp hp
    by_cases hk : q.1 = k
    · rw [if_pos hk] at hpe
      exact Or.inr hpe.symm
    · rw [if_neg hk] at hpe
      exact Or.inl (hpe ▸ hq)
  · rw [if_neg h] at hp
    rcases List.mem_append.mp hp with h' | h'
    · exact Or.inl h'
    · exact Or.inr (List.mem_singleton.mp h')

/-- Every entry of the class cache written by the class loop is the grid
produced by `processClass` for its class name. -/
theorem runFrom_cache_mem (ctx : Ctx) :
    ∀ (classes : List String) (st : Manager × RandGen × List (String × Grid))
      (p : String × Grid), p ∈ (runFrom ctx st classes).2.2 →
      p ∈ st.2.2 ∨ ∃ m' r' cn, p = (cn, (processClass ctx m' r' cn).2.2) := by
  intro classes
  induction classes with
  | nil => intro st p hp; exact Or.inl hp
  | cons cn rest ih =>
    intro st p hp
    unfold runFrom at hp
    rw [List.foldl_cons] at hp
    rcases ih (classStep ctx st cn) p hp with h | h
    · rcases mem_dset st.2.2 cn ((processClass ctx st.1 st.2.1 cn).2.2) p h with h' | h'
      · exact Or.inl h'
      · exact Or.inr ⟨st.1, st.2.1, cn, h'⟩
    · exact Or.inr h

/-- C4 (corrected): in every class grid cached by the class loop, a (slot,
day) cell is present exactly when the slot and day belong to the run; every
present cell whose slot is in its day's pool (every slot, except the dropped
second half of a Half-Day Saturday) or is a listed lunch slot holds a
non-empty label; but the cells for the second-half Saturday slots under
Half-Day mode are NOT absent — they stay present with the blank label "". -/
theorem grid_cell_spec (ctx : Ctx) (m : Manager) (r : RandGen) (classes : List String)
    (cn : String) (g : Grid) (hmem : (cn, g) ∈ (runClasses ctx m r classes).2.2)
    (s d : String) :
    ((dget2 g s d).isSome ↔ (s ∈ ctx.time_slots ∧ d ∈ ctx.days)) ∧
    (s ∈ ctx.time_slots → d ∈ ctx.days →
      (s ∈ initialPool ctx d ∨ (s = ctx.lunch_time ∧ ctx.lunch_time ∈ ctx.time_slots)) →
      Filled (dget2 g s d)) ∧
    (s ∈ ctx.time_slots → d ∈ ctx.days → s ∉ initialPool ctx d → s ≠ ctx.lunch_time →
      dget2 g s d = some "") := by
  rcases runFrom_cache_mem ctx classes (m, r, []) (cn, g) hmem with h | ⟨m', r', cn', hp⟩
  · simp at h
  · have hg : g = (processClass ctx m' r' cn').2.2 := congrArg Prod.snd hp
    subst hg
    exact ⟨processClass_cell_present ctx m' r' cn' s d,
      fun hs hd hin => processClass_cell_filled ctx m' r' cn' s d hs hd hin,
      fun hs hd ho hl => processClass_cell_blank ctx m' r' cn' s d hs hd ho hl⟩

/-- A one-day, one-slot run for the C4 witness. -/
def ctxW4 : Ctx := ⟨["Monday"], ["8:00-8:50 AM"], "12:00-12:50 PM", "Full Day", [], 0⟩

set_option maxRecDepth 8000 in
/-- Witness for C4 at a concrete one-class run. -/
theorem grid_cell_spec_witness :
    (("Grade 1 A", (processClass ctxW4 initManager zeroGen "Grade 1 A").2.2)
      ∈ (runClasses ctxW4 initManager zeroGen ["Grade 1 A"]).2.2) ∧
    Filled (dget2 (processClass ctxW4 initManager zeroGen "Grade 1 A").2.2
      "8:00-8:50 AM" "Monday") := by
  have hmem : ("Grade 1 A", (processClass ctxW4 initManager zeroGen "Grade 1 A").2.2)
      ∈ (runClasses ctxW4 initManager zeroGen ["Grade 1 A"]).2.2 :=
    List.mem_singleton.mpr rfl
  exact ⟨hmem, (grid_cell_spec ctxW4 initManager zeroGen ["Grade 1 A"] "Grade 1 A"
    ((processClass ctxW4 initManager zeroGen "Grade 1 A").2.2) hmem
    "8:00-8:50 AM" "Monday").2.1 (by decide) (by decide) (Or.inl (by decide))⟩

set_option maxRecDepth 40000 in
/-- C4 counterexample: under Half-Day Saturday mode the second-half Saturday
cells of a cached class grid are present and blank (`some ""`), not absent
as the claim states. -/
theorem half_day_blank_cex :
    cexCtx = ⟨runDays pPrev, create_time_slots 8 10 2, pPrev.lunch_time,
      pPrev.saturday_option, pPrev.activity_subjects, pPrev.activity_count⟩ ∧
    cexCtx.saturday_option = "Half Day" ∧
    "9:00-9:50 AM" ∈ cexCtx.time_slots ∧
    "9:00-9:50 AM" ∉ cexCtx.time_slots.take (cexCtx.time_slots.length / 2) ∧
    dget2 ((dget (runClasses cexCtx initManager zeroGen ["Grade 1 A"]).2.2
        "Grade 1 A").getD []) "9:00-9:50 AM" "Saturday" = some "" := by
  refine ⟨by decide, by decide, by decide, by decide, ?_⟩
  decide
